import Mathlib

/-!
Shallow embedding of the sweep orchestration layer of the robust_regression
repository (src/robust_regression/sweeps/alpha_sweeps.py) and of
run_erm_weight_finding (src/robust_regression/regression_numerics/numerics.py).

Modelling conventions:
* machine floats become real numbers (the grid constructions use the
  transcendental functions log10 and 10**x, embedded as Real.logb 10 and
  Real.rpow, hence some definitions are noncomputable);
* numpy float NaN markers become Option.none;
* Python dicts with string keys and float values become association lists,
  with dict.update embedded as updateKey;
* the external fixed_point_finder (module fixed_point_equations.fpeqs, not
  part of the staged sources) is a pluggable parameter of type Solver, with
  var_func and var_hat_func pre-applied since the sweeps thread them through
  unchanged; its two failure modes ConvergenceError and ValueError are the
  constructors of PyError;
* each embedded sweep additionally returns the sequence of invocations of the
  pluggable solver (a call trace) and the final contents of the caller's two
  kwargs dictionaries, making in-place mutation of the caller's dictionaries
  and the order of solver calls observable facts of the embedding.
-/

namespace RobustRegression

/-- Order-parameter state (m, q, sigma), a triple of reals. -/
abbrev State := ℝ × ℝ × ℝ

/-- A Python kwargs dictionary with string keys and float values, embedded as
an association list (insertion order preserved, as in CPython). -/
abbrev Kwargs := List (String × ℝ)

/-- Python dict.update with a single key: replace the value in place when the
key is present (keeping its position), append the pair otherwise. -/
def updateKey (d : Kwargs) (k : String) (v : ℝ) : Kwargs :=
  if (d.map Prod.fst).contains k then
    d.map (fun p => if p.1 = k then (k, v) else p)
  else d ++ [(k, v)]

/-- Whether a kwargs dictionary holds the key. -/
def hasKey (d : Kwargs) (k : String) : Bool :=
  (d.map Prod.fst).contains k

/-- Look a key up in a kwargs dictionary. -/
def getKey (d : Kwargs) (k : String) : Option ℝ :=
  (d.find? (fun p => p.1 == k)).map Prod.snd

/-- The two exceptions the sweep layer deals in: ValueError (also raised by
the precondition checks) and ConvergenceError (raised only by the solver). -/
inductive PyError where
  | valueError : PyError
  | convergenceError : PyError
deriving DecidableEq, Repr

/-- The external fixed_point_finder with var_func and var_hat_func
pre-applied: takes the initial condition and the two kwargs dictionaries,
returns the converged state or one of the two solver exceptions. -/
abbrev Solver := State → Kwargs → Kwargs → Except PyError State

/-- An observable function: applied as f m q sigma extra_args. -/
abbrev Obs := ℝ → ℝ → ℝ → List ℝ → ℝ

/-- numpy.linspace a b n: n points from a to b inclusive, evenly spaced
(exact in the real-number model). -/
noncomputable def linspace (a b : ℝ) (n : ℕ) : List ℝ :=
  if n = 0 then []
  else if n = 1 then [a]
  else (List.range n).map (fun i : ℕ => a + (i : ℝ) * ((b - a) / ((n : ℝ) - 1)))

/-- math.log10. -/
noncomputable def log10 (x : ℝ) : ℝ := Real.logb 10 x

/-- numpy.logspace la lb n: 10 raised to each point of linspace la lb n. -/
noncomputable def logspace (la lb : ℝ) (n : ℕ) : List ℝ :=
  (linspace la lb n).map (fun t => (10 : ℝ) ^ t)

/-- Python dict.copy(): a fresh dictionary with the same entries. In the pure
model the same value; marks the places where the source copies the caller's
kwargs so that only the copy is mutated afterwards. -/
def copyDict (d : Kwargs) : Kwargs := d

/-- The alpha grid as the sweeps generate it: log-spaced upward from
alpha_min to alpha_max, or downward from alpha_max to alpha_min when
decreasing (the conditional of alpha_sweeps.py lines 45-49, shared by three
sweeps). -/
noncomputable def gridAlphas (amin amax : ℝ) (n : ℕ) (dec : Bool) : List ℝ :=
  if dec = false then logspace (log10 amin) (log10 amax) n
  else logspace (log10 amax) (log10 amin) n

/-- The observables evaluated at one converged state: each f of funs applied
as f m q sigma args. The embedding stores the sweep outputs as one row per
grid point, indexed [alpha][observable] — the transpose of the source's
per-observable arrays out_list[observable][alpha]. -/
def obsRow (funs : List Obs) (funsArgs : List (List ℝ)) (s : State) : List ℝ :=
  (funs.zip funsArgs).map (fun p => p.1 s.1 s.2.1 s.2.2 p.2)

/-- What sweep_alpha_fixed_point produces in the embedding: the returned pair
(alphas, observable rows) or the propagated exception; the call trace (the
alpha merged into var_hat_func_kwargs at each fixed_point_finder invocation,
in call order); and the final contents of the caller's two kwargs
dictionaries (this sweep takes no copies, so the caller's
var_hat_func_kwargs is mutated in place). -/
structure AlphaSweepRes where
  result : Except PyError (List ℝ × List (List ℝ))
  callTrace : List ℝ
  varKFinal : Kwargs
  varHatKFinal : Kwargs

/-- The loop of sweep_alpha_fixed_point over the generated alpha grid: merge
alpha into var_hat_func_kwargs, solve warm-started from the previous
solution, evaluate the observables; a solver exception aborts the loop and
propagates. Returns the rows (or the exception), the call trace, and the
final contents of the var_hat_func_kwargs dictionary. -/
def alphaSweepLoop (fpf : Solver) (funs : List Obs) (funsArgs : List (List ℝ))
    (varK : Kwargs) : List ℝ → State → Kwargs →
    Except PyError (List (List ℝ)) × List ℝ × Kwargs
  | [], _, vhk => (Except.ok [], [], vhk)
  | a :: rest, cond, vhk =>
    let vhk1 := updateKey vhk "alpha" a
    match fpf cond varK vhk1 with
    | Except.error err => (Except.error err, [a], vhk1)
    | Except.ok s =>
      let out := alphaSweepLoop fpf funs funsArgs varK rest s vhk1
      (out.1.map (fun rows => obsRow funs funsArgs s :: rows), a :: out.2.1, out.2.2)

/-- sweep_alpha_fixed_point (alpha_sweeps.py lines 14-70): precondition
checks, alpha grid generation (upward, or downward when decreasing), the
warm-started solve loop, and the final reversal of the outputs when
decreasing. The caller's var_hat_func_kwargs is updated in place (no copy is
taken in this sweep). -/
noncomputable def sweep_alpha_fixed_point (fpf : Solver)
    (alpha_min alpha_max : ℝ) (n_alpha_pts : ℕ)
    (var_func_kwargs var_hat_func_kwargs : Kwargs) (initial_cond_fpe : State)
    (funs : List Obs) (funs_args : List (List ℝ)) (decreasing : Bool) :
    AlphaSweepRes :=
  if funs.length ≠ funs_args.length then
    ⟨Except.error PyError.valueError, [], var_func_kwargs, var_hat_func_kwargs⟩
  else if alpha_min > alpha_max then
    ⟨Except.error PyError.valueError, [], var_func_kwargs, var_hat_func_kwargs⟩
  else if alpha_min ≤ 0 then
    ⟨Except.error PyError.valueError, [], var_func_kwargs, var_hat_func_kwargs⟩
  else
    let alphas := gridAlphas alpha_min alpha_max n_alpha_pts decreasing
    let out := alphaSweepLoop fpf funs funs_args var_func_kwargs alphas
      initial_cond_fpe var_hat_func_kwargs
    match out.1 with
    | Except.error err => ⟨Except.error err, out.2.1, var_func_kwargs, out.2.2⟩
    | Except.ok rows =>
      if decreasing then
        ⟨Except.ok (alphas.reverse, rows.reverse), out.2.1, var_func_kwargs, out.2.2⟩
      else
        ⟨Except.ok (alphas, rows), out.2.1, var_func_kwargs, out.2.2⟩

/-- The external find_optimal_reg_param_function (module
fixed_point_equations.optimality_finding, not part of the staged sources),
with var_func, var_hat_func, f_min, f_min_args and min_reg_param
pre-applied: takes funs, funs_args, the two (copied) kwargs dictionaries,
the previous optimum as the initial reg_param guess and the fixed-point
initial condition; returns (minimised value, optimal reg_param, converged
state, observable values) or a propagated solver exception. -/
abbrev OptFinder := List Obs → List (List ℝ) → Kwargs → Kwargs → ℝ → State →
  Except PyError (ℝ × ℝ × State × List ℝ)

/-- What the two optimal-lambda sweeps produce: the returned tuple or the
propagated exception, the call trace of inner-optimiser invocations (the
alpha of each, in call order), and the final contents of the caller's two
kwargs dictionaries (both are copied at entry, so they come back unchanged). -/
structure OptSweepRes where
  result : Except PyError (List ℝ × List ℝ × List ℝ × List (List ℝ))
  callTrace : List ℝ
  varKFinal : Kwargs
  varHatKFinal : Kwargs

/-- The loop of sweep_alpha_optimal_lambda_fixed_point: per alpha, merge
alpha into the copied var_hat kwargs and the previous optimal reg_param into
the copied var kwargs, run the inner optimiser warm-started from the
previous alpha's optimum, collect (f_min value, optimal reg_param,
observable values); an exception aborts the loop and propagates. -/
def optSweepLoop (fopt : OptFinder) (funs : List Obs) (funsArgs : List (List ℝ)) :
    List ℝ → State → ℝ → Kwargs → Kwargs →
    Except PyError (List (ℝ × ℝ × List ℝ)) × List ℝ
  | [], _, _, _, _ => (Except.ok [], [])
  | a :: rest, cond, regOpt, cvk, cvhk =>
    let cvhk1 := updateKey cvhk "alpha" a
    let cvk1 := updateKey cvk "reg_param" regOpt
    match fopt funs funsArgs cvk1 cvhk1 regOpt cond with
    | Except.error err => (Except.error err, [a])
    | Except.ok (fmin, ropt, s, outs) =>
      let out := optSweepLoop fopt funs funsArgs rest s ropt cvk1 cvhk1
      (out.1.map (fun rows => (fmin, ropt, outs) :: rows), a :: out.2)

/-- sweep_alpha_optimal_lambda_fixed_point (alpha_sweeps.py lines 73-157):
precondition checks, grid generation, kwargs copies, the warm-started nested
optimisation loop, final reversal of all outputs when decreasing. The result
carries (alphas, f_min_vals, reg_params_opt, observable rows
[alpha][observable]). -/
noncomputable def sweep_alpha_optimal_lambda_fixed_point (fopt : OptFinder)
    (alpha_min alpha_max : ℝ) (n_alpha_pts : ℕ) (inital_guess_lambda : ℝ)
    (var_func_kwargs var_hat_func_kwargs : Kwargs) (initial_cond_fpe : State)
    (funs : List Obs) (funs_args : List (List ℝ)) (decreasing : Bool) :
    OptSweepRes :=
  if funs.length ≠ funs_args.length then
    ⟨Except.error PyError.valueError, [], var_func_kwargs, var_hat_func_kwargs⟩
  else if alpha_min > alpha_max then
    ⟨Except.error PyError.valueError, [], var_func_kwargs, var_hat_func_kwargs⟩
  else if alpha_min ≤ 0 then
    ⟨Except.error PyError.valueError, [], var_func_kwargs, var_hat_func_kwargs⟩
  else
    let alphas := gridAlphas alpha_min alpha_max n_alpha_pts decreasing
    let out := optSweepLoop fopt funs funs_args alphas initial_cond_fpe
      inital_guess_lambda (copyDict var_func_kwargs) (copyDict var_hat_func_kwargs)
    match out.1 with
    | Except.error err => ⟨Except.error err, out.2, var_func_kwargs, var_hat_func_kwargs⟩
    | Except.ok rows =>
      let fminVals := rows.map (fun r => r.1)
      let regOpts := rows.map (fun r => r.2.1)
      let funsVals := rows.map (fun r => r.2.2)
      if decreasing then
        ⟨Except.ok (alphas.reverse, fminVals.reverse, regOpts.reverse, funsVals.reverse),
          out.2, var_func_kwargs, var_hat_func_kwargs⟩
      else
        ⟨Except.ok (alphas, fminVals, regOpts, funsVals),
          out.2, var_func_kwargs, var_hat_func_kwargs⟩

/-- The external find_optimal_reg_and_huber_parameter_function, with the
same pre-applications as OptFinder plus min_huber_param: the inner guess and
the returned optimum are (reg_param, huber_param) pairs. -/
abbrev OptFinder2 := List Obs → List (List ℝ) → Kwargs → Kwargs → ℝ × ℝ → State →
  Except PyError (ℝ × (ℝ × ℝ) × State × List ℝ)

/-- The loop of sweep_alpha_optimal_lambda_hub_param_fixed_point: as
optSweepLoop, additionally merging the previous optimal huber parameter into
the copied var_hat kwargs under key "a". -/
def optHubSweepLoop (fopt : OptFinder2) (funs : List Obs) (funsArgs : List (List ℝ)) :
    List ℝ → State → ℝ → ℝ → Kwargs → Kwargs →
    Except PyError (List (ℝ × ℝ × ℝ × List ℝ)) × List ℝ
  | [], _, _, _, _, _ => (Except.ok [], [])
  | a :: rest, cond, regOpt, hubOpt, cvk, cvhk =>
    let cvhk1 := updateKey (updateKey cvhk "alpha" a) "a" hubOpt
    let cvk1 := updateKey cvk "reg_param" regOpt
    match fopt funs funsArgs cvk1 cvhk1 (regOpt, hubOpt) cond with
    | Except.error err => (Except.error err, [a])
    | Except.ok (fmin, ropt, s, outs) =>
      let out := optHubSweepLoop fopt funs funsArgs rest s ropt.1 ropt.2 cvk1 cvhk1
      (out.1.map (fun rows => (fmin, ropt.1, ropt.2, outs) :: rows), a :: out.2)

/-- What sweep_alpha_optimal_lambda_hub_param_fixed_point produces: as
OptSweepRes, with the optimal parameters returned as the pair of arrays
(reg_params_opt, hub_params_opt). -/
structure OptHubSweepRes where
  result : Except PyError (List ℝ × List ℝ × (List ℝ × List ℝ) × List (List ℝ))
  callTrace : List ℝ
  varKFinal : Kwargs
  varHatKFinal : Kwargs

/-- sweep_alpha_optimal_lambda_hub_param_fixed_point (alpha_sweeps.py lines
160-250): the two-parameter variant of the optimal-lambda sweep. The result
carries (alphas, f_min_vals, (reg_params_opt, hub_params_opt), rows). -/
noncomputable def sweep_alpha_optimal_lambda_hub_param_fixed_point (fopt : OptFinder2)
    (alpha_min alpha_max : ℝ) (n_alpha_pts : ℕ) (inital_guess_params : ℝ × ℝ)
    (var_func_kwargs var_hat_func_kwargs : Kwargs) (initial_cond_fpe : State)
    (funs : List Obs) (funs_args : List (List ℝ)) (decreasing : Bool) :
    OptHubSweepRes :=
  if funs.length ≠ funs_args.length then
    ⟨Except.error PyError.valueError, [], var_func_kwargs, var_hat_func_kwargs⟩
  else if alpha_min > alpha_max then
    ⟨Except.error PyError.valueError, [], var_func_kwargs, var_hat_func_kwargs⟩
  else if alpha_min ≤ 0 then
    ⟨Except.error PyError.valueError, [], var_func_kwargs, var_hat_func_kwargs⟩
  else
    let alphas := gridAlphas alpha_min alpha_max n_alpha_pts decreasing
    let out := optHubSweepLoop fopt funs funs_args alphas initial_cond_fpe
      inital_guess_params.1 inital_guess_params.2
      (copyDict var_func_kwargs) (copyDict var_hat_func_kwargs)
    match out.1 with
    | Except.error err => ⟨Except.error err, out.2, var_func_kwargs, var_hat_func_kwargs⟩
    | Except.ok rows =>
      let fminVals := rows.map (fun r => r.1)
      let regOpts := rows.map (fun r => r.2.1)
      let hubOpts := rows.map (fun r => r.2.2.1)
      let funsVals := rows.map (fun r => r.2.2.2)
      if decreasing then
        ⟨Except.ok (alphas.reverse, fminVals.reverse,
            (regOpts.reverse, hubOpts.reverse), funsVals.reverse),
          out.2, var_func_kwargs, var_hat_func_kwargs⟩
      else
        ⟨Except.ok (alphas, fminVals, (regOpts, hubOpts), funsVals),
          out.2, var_func_kwargs, var_hat_func_kwargs⟩

/-- What one alpha column of sweep_alpha_descend_lambda produces: the cells
in scan order (descending reg_param; a converged state, or none for a NaN
cell), the solver call trace of the column (reg_param and outcome per call),
the threaded copied var kwargs, the last warm-start state, and the
first_inital_cond_column value after the column. -/
structure ColumnOut where
  cells : List (Option State)
  callTrace : List (ℝ × Option State)
  cvk : Kwargs
  lastCond : State
  firstCond : State

/-- The inner (reg_param, descending) loop of sweep_alpha_descend_lambda:
merge reg_param into the copied var kwargs; when the column is already
broken record NaN without calling the solver; otherwise solve warm-started,
on success record the state (remembering it as first_inital_cond_column when
this is the first reg_param of the column), on ConvergenceError or
ValueError record NaN and mark the column broken. -/
def descendColumn (fpf : Solver) (vhk : Kwargs) :
    List ℝ → ℕ → Kwargs → State → State → Bool → ColumnOut
  | [], _, cvk, old, firstCol, _ => ⟨[], [], cvk, old, firstCol⟩
  | r :: rest, jdx, cvk, old, firstCol, broken =>
    let cvk1 := updateKey cvk "reg_param" r
    if broken then
      let out := descendColumn fpf vhk rest (jdx + 1) cvk1 old firstCol true
      ⟨none :: out.cells, out.callTrace, out.cvk, out.lastCond, out.firstCond⟩
    else
      match fpf old cvk1 vhk with
      | Except.ok s =>
        let firstCol' := if jdx = 0 then s else firstCol
        let out := descendColumn fpf vhk rest (jdx + 1) cvk1 s firstCol' false
        ⟨some s :: out.cells, (r, some s) :: out.callTrace, out.cvk, out.lastCond,
          out.firstCond⟩
      | Except.error _ =>
        let out := descendColumn fpf vhk rest (jdx + 1) cvk1 old firstCol true
        ⟨none :: out.cells, (r, none) :: out.callTrace, out.cvk, out.lastCond,
          out.firstCond⟩

/-- The outer (alpha) loop of sweep_alpha_descend_lambda: per alpha, merge
alpha into the copied var_hat kwargs, reset the warm start to
first_inital_cond_column, and scan the reversed regularization grid.
Returns per-column cell lists (scan order), per-column call traces, and the
initial condition each column started from. -/
def descendLoop (fpf : Solver) (rsRev : List ℝ) :
    List ℝ → Kwargs → Kwargs → State →
    List (List (Option State)) × List (List (ℝ × Option State)) × List State
  | [], _, _, _ => ([], [], [])
  | a :: rest, cvk, cvhk, firstCol =>
    let cvhk1 := updateKey cvhk "alpha" a
    let col := descendColumn fpf cvhk1 rsRev 0 cvk firstCol firstCol false
    let out := descendLoop fpf rsRev rest col.cvk cvhk1 col.firstCond
    (col.cells :: out.1, col.callTrace :: out.2.1, firstCol :: out.2.2)

/-- What sweep_alpha_descend_lambda produces: the returned pair
((alphas, reg_params), funs_vals) — funs_vals indexed
[observable][alpha][reg_param ascending], the transpose of the source's
[observable][reg_param, alpha] arrays, with none for a NaN cell — or the
precondition exception; the per-column solver call traces; the initial
condition of each column; and the final contents of the caller's two kwargs
dictionaries (both copied at entry, hence returned unchanged). -/
structure DescendRes where
  result : Except PyError ((List ℝ × List ℝ) × List (List (List (Option ℝ))))
  colTraces : List (List (ℝ × Option State))
  colInitConds : List State
  varKFinal : Kwargs
  varHatKFinal : Kwargs

/-- sweep_alpha_descend_lambda (alpha_sweeps.py lines 256-350): precondition
checks, log-spaced alpha grid, linear regularization grid traversed in
descending order per alpha column, NaN propagation once a column breaks,
warm start of each column anchored at the previous column's first
(most-regularized) solution. Solver exceptions are caught, never
propagated. -/
noncomputable def sweep_alpha_descend_lambda (fpf : Solver)
    (alpha_min alpha_max : ℝ) (n_alpha_pts : ℕ)
    (lambda_min lambda_max : ℝ) (n_lambda_pts : ℕ)
    (var_func_kwargs var_hat_func_kwargs : Kwargs)
    (funs : List Obs) (funs_args : List (List ℝ)) (initial_cond_fpe : State) :
    DescendRes :=
  if alpha_min > alpha_max then
    ⟨Except.error PyError.valueError, [], [], var_func_kwargs, var_hat_func_kwargs⟩
  else if alpha_min ≤ 0 then
    ⟨Except.error PyError.valueError, [], [], var_func_kwargs, var_hat_func_kwargs⟩
  else if lambda_min > lambda_max then
    ⟨Except.error PyError.valueError, [], [], var_func_kwargs, var_hat_func_kwargs⟩
  else if funs.length ≠ funs_args.length then
    ⟨Except.error PyError.valueError, [], [], var_func_kwargs, var_hat_func_kwargs⟩
  else
    let alphas := logspace (log10 alpha_min) (log10 alpha_max) n_alpha_pts
    let reg_params := linspace lambda_min lambda_max n_lambda_pts
    let out := descendLoop fpf reg_params.reverse alphas
      (copyDict var_func_kwargs) (copyDict var_hat_func_kwargs) initial_cond_fpe
    let funsVals := (funs.zip funs_args).map (fun p =>
      out.1.map (fun cells =>
        cells.reverse.map (Option.map (fun s => p.1 s.1 s.2.1 s.2.2 p.2))))
    ⟨Except.ok ((alphas, reg_params), funsVals), out.2.1, out.2.2,
      var_func_kwargs, var_hat_func_kwargs⟩

/-- condition_func(m, q, sigma, **copy_var_func_kwargs,
**copy_var_hat_func_kwargs): pluggable stability condition, a value ≤ 0
signals instability. -/
abbrev CondFunc := State → Kwargs → Kwargs → ℝ

/-- What one alpha column of sweep_alpha_minimal_stable_reg_param produces:
not_converged_idx (the index, in the ascending search grid, where the scan
stopped, 0 when it never stopped), the solver call trace of the column, the
threaded copied var kwargs, and the warm-start state carried out of the
column. -/
structure MinColumnOut where
  stopIdx : ℕ
  callTrace : List (ℝ × Option State)
  cvk : Kwargs
  lastCond : State

/-- The inner (descending) scan of sweep_alpha_minimal_stable_reg_param:
merge reg_param into the copied var kwargs and solve; on success update the
warm start, then stop if condition_func ≤ 0, recording
points_per_run - 1 - jdx; on ConvergenceError or ValueError stop with the
same index without updating the warm start. -/
noncomputable def minimalColumn (fpf : Solver) (condF : CondFunc) (vhk : Kwargs)
    (ppr : ℕ) : List ℝ → ℕ → Kwargs → State → MinColumnOut
  | [], _, cvk, old => ⟨0, [], cvk, old⟩
  | r :: rest, jdx, cvk, old =>
    let cvk1 := updateKey cvk "reg_param" r
    match fpf old cvk1 vhk with
    | Except.ok s =>
      if condF s cvk1 vhk ≤ 0 then ⟨ppr - 1 - jdx, [(r, some s)], cvk1, s⟩
      else
        let out := minimalColumn fpf condF vhk ppr rest (jdx + 1) cvk1 s
        ⟨out.stopIdx, (r, some s) :: out.callTrace, out.cvk, out.lastCond⟩
    | Except.error _ => ⟨ppr - 1 - jdx, [(r, none)], cvk1, old⟩

/-- The outer (alpha) loop of sweep_alpha_minimal_stable_reg_param: per
alpha, merge alpha into the copied var_hat kwargs, build the fresh linear
search grid, scan it in descending order, and record
reg_params_test[not_converged_idx]; the warm start carries across alphas. -/
noncomputable def minimalLoop (fpf : Solver) (condF : CondFunc) (b0 b1 : ℝ) (ppr : ℕ) :
    List ℝ → Kwargs → Kwargs → State →
    List ℝ × List (List (ℝ × Option State))
  | [], _, _, _ => ([], [])
  | a :: rest, cvk, cvhk, old =>
    let cvhk1 := updateKey cvhk "alpha" a
    let rs := linspace b0 b1 ppr
    let col := minimalColumn fpf condF cvhk1 ppr rs.reverse 0 cvk old
    let out := minimalLoop fpf condF b0 b1 ppr rest col.cvk cvhk1 col.lastCond
    (rs.getD col.stopIdx 0 :: out.1, col.callTrace :: out.2)

/-- What sweep_alpha_minimal_stable_reg_param produces: the returned pair
(alphas, last_reg_param_stable) or the precondition exception, the
per-column solver call traces, and the final contents of the caller's two
kwargs dictionaries (both copied at entry, hence returned unchanged). -/
structure MinimalRes where
  result : Except PyError (List ℝ × List ℝ)
  colTraces : List (List (ℝ × Option State))
  varKFinal : Kwargs
  varHatKFinal : Kwargs

/-- sweep_alpha_minimal_stable_reg_param (alpha_sweeps.py lines 353-439):
precondition checks, alpha grid generation (upward, or downward when
decreasing), per-alpha descending scan of a fresh linear regularization
search grid recording the stability boundary, final reversal of the outputs
when decreasing. Solver exceptions are caught, never propagated. -/
noncomputable def sweep_alpha_minimal_stable_reg_param (fpf : Solver)
    (alpha_min alpha_max : ℝ) (n_alpha_pts : ℕ) (condF : CondFunc)
    (var_func_kwargs var_hat_func_kwargs : Kwargs) (initial_cond_fpe : State)
    (decreasing : Bool) (bounds0 bounds1 : ℝ) (points_per_run : ℕ) :
    MinimalRes :=
  if alpha_min > alpha_max then
    ⟨Except.error PyError.valueError, [], var_func_kwargs, var_hat_func_kwargs⟩
  else if alpha_min ≤ 0 then
    ⟨Except.error PyError.valueError, [], var_func_kwargs, var_hat_func_kwargs⟩
  else if bounds0 > bounds1 then
    ⟨Except.error PyError.valueError, [], var_func_kwargs, var_hat_func_kwargs⟩
  else if bounds1 ≤ 0 then
    ⟨Except.error PyError.valueError, [], var_func_kwargs, var_hat_func_kwargs⟩
  else
    let alphas := gridAlphas alpha_min alpha_max n_alpha_pts decreasing
    let out := minimalLoop fpf condF bounds0 bounds1 points_per_run alphas
      (copyDict var_func_kwargs) (copyDict var_hat_func_kwargs) initial_cond_fpe
    if decreasing then
      ⟨Except.ok (alphas.reverse, out.1.reverse), out.2,
        var_func_kwargs, var_hat_func_kwargs⟩
    else
      ⟨Except.ok (alphas, out.1), out.2, var_func_kwargs, var_hat_func_kwargs⟩

/-- Round half to even at zero decimals (numpy.around), on rationals. -/
def roundHalfEven (x : ℚ) : ℤ :=
  if x - ⌊x⌋ < 1 / 2 then ⌊x⌋
  else if 1 / 2 < x - ⌊x⌋ then ⌊x⌋ + 1
  else if ⌊x⌋ % 2 = 0 then ⌊x⌋ else ⌊x⌋ + 1

/-- One synthetic dataset as produced by data_generation: the design matrix,
the targets and the ground-truth parameter vector (the two generalization
outputs the sweep discards are omitted). -/
structure ErmData where
  xs : List (List ℚ)
  ys : List ℚ
  groundTruthTheta : List ℚ

/-- The external data_generation (module regression_numerics.data_generation,
not part of the staged sources), with measure_fun and measure_fun_args
pre-applied: pluggable. The first argument models the state of the random
generator, advanced once per repetition; then n_features, n_samples,
n_generalization. -/
abbrev DataGen := ℕ → ℕ → ℕ → ℕ → ErmData

/-- The external find_coefficients_fun with its extra arguments pre-applied:
fits weights from (ys, xs). -/
abbrev CoefFinder := List ℚ → List (List ℚ) → List ℚ

/-- Sum of squared componentwise differences of two equally long vectors. -/
def sumSqDiff (u v : List ℚ) : ℚ := ((u.zip v).map (fun p => (p.1 - p.2) ^ 2)).sum

/-- What run_erm_weight_finding produces: the per-repetition generalization
errors (all_gen_errors), the n_samples requested from data_generation per
repetition, and the returned mean error. The source also returns the
standard deviation, the square root of the mean squared deviation; the root
has no exact rational representative and no claim touches it, so it is not
modelled. -/
structure ErmRes where
  genErrors : List ℚ
  samplesRequested : List ℕ
  errorMean : ℚ

/-- run_erm_weight_finding (numerics.py lines 5-40): per repetition, request
a dataset with n_samples = max(int(around(n_features * alpha)), 1), fit
coefficients, and record sum((ground_truth_theta - estimated_theta)^2) /
n_features. -/
def run_erm_weight_finding (dataGen : DataGen) (findCoef : CoefFinder)
    (alpha : ℚ) (n_features : ℕ) (repetitions : ℕ) : ErmRes :=
  let nSamples := (max (roundHalfEven ((n_features : ℚ) * alpha)) 1).toNat
  let errs := (List.range repetitions).map (fun rep =>
    let data := dataGen rep n_features nSamples 1
    let est := findCoef data.ys data.xs
    sumSqDiff data.groundTruthTheta est / (n_features : ℚ))
  ⟨errs, List.replicate repetitions nSamples, errs.sum / (repetitions : ℚ)⟩

theorem linspace_length (a b : ℝ) (n : ℕ) : (linspace a b n).length = n := by
  unfold linspace
  split
  · simp [*]
  · split
    · simp [*]
    · rw [List.length_map, List.length_range]

theorem logspace_length (la lb : ℝ) (n : ℕ) : (logspace la lb n).length = n := by
  unfold logspace
  rw [List.length_map, linspace_length]

theorem linspace_getD (a b : ℝ) (n : ℕ) (i : ℕ) (hn : 2 ≤ n) (hi : i < n) :
    (linspace a b n).getD i 0 = a + i * ((b - a) / ((n : ℝ) - 1)) := by
  unfold linspace
  rw [if_neg (by omega), if_neg (by omega)]
  rw [List.getD_eq_getElem _ _ (by rw [List.length_map, List.length_range]; exact hi)]
  rw [List.getElem_map, List.getElem_range]

theorem logspace_getD (la lb : ℝ) (n : ℕ) (i : ℕ) (hn : 2 ≤ n) (hi : i < n) :
    (logspace la lb n).getD i 0 =
      (10 : ℝ) ^ (la + i * ((lb - la) / ((n : ℝ) - 1))) := by
  unfold logspace
  rw [List.getD_eq_getElem _ _ (by rw [List.length_map, linspace_length]; exact hi)]
  rw [List.getElem_map]
  congr 1
  have h := linspace_getD la lb n i hn hi
  rw [List.getD_eq_getElem _ _ (by rw [linspace_length]; exact hi)] at h
  exact h

/-- linspace is sorted (non-strictly) ascending when a ≤ b. -/
theorem linspace_sorted (a b : ℝ) (n : ℕ) (h : a ≤ b) :
    (linspace a b n).Sorted (· ≤ ·) := by
  unfold linspace
  split
  · simp
  · split
    · simp
    · rename_i h0 h1
      have hd : (0 : ℝ) ≤ (b - a) / ((n : ℝ) - 1) := by
        apply div_nonneg (by linarith)
        have : (2 : ℝ) ≤ (n : ℝ) := by exact_mod_cast (by omega : 2 ≤ n)
        linarith
      have key : ∀ i j : ℕ, i < j →
          a + i * ((b - a) / ((n : ℝ) - 1)) ≤ a + j * ((b - a) / ((n : ℝ) - 1)) := by
        intro i j hij
        have : (i : ℝ) ≤ (j : ℝ) := by exact_mod_cast Nat.le_of_lt hij
        nlinarith
      exact List.Pairwise.map _ (fun i j hij => key i j hij) (List.pairwise_lt_range n)

/-- logspace is sorted (non-strictly) ascending when la ≤ lb. -/
theorem logspace_sorted (la lb : ℝ) (n : ℕ) (h : la ≤ lb) :
    (logspace la lb n).Sorted (· ≤ ·) := by
  unfold logspace
  exact List.Pairwise.map _
    (fun x y hxy => Real.rpow_le_rpow_left_iff (by norm_num : (1 : ℝ) < 10) |>.mpr hxy)
    (linspace_sorted la lb n h)

/-- Reversing a logspace grid with at least two points swaps the endpoints:
the grid generated downward, read backwards, is the upward grid. -/
theorem logspace_reverse (la lb : ℝ) (n : ℕ) (hn : n ≠ 1) :
    (logspace la lb n).reverse = logspace lb la n := by
  rcases Nat.eq_zero_or_pos n with h0 | hpos
  · subst h0; simp [logspace, linspace]
  have h2 : 2 ≤ n := by omega
  apply List.ext_getElem
  · simp [logspace_length]
  intro i h1 h2'
  have hlen : (logspace la lb n).length = n := logspace_length la lb n
  have hi : i < n := by simpa [logspace_length] using h2'
  rw [List.getElem_reverse]
  simp only [hlen]
  rw [← List.getD_eq_getElem (logspace la lb n) 0
    (by rw [logspace_length]; omega)]
  rw [← List.getD_eq_getElem (logspace lb la n) 0
    (by rw [logspace_length]; exact hi)]
  rw [logspace_getD la lb n (n - 1 - i) h2 (by omega),
    logspace_getD lb la n i h2 hi]
  congr 1
  have hn1 : ((n : ℝ) - 1) ≠ 0 := by
    have : (2 : ℝ) ≤ (n : ℝ) := by exact_mod_cast h2
    linarith
  have hcast : ((n - 1 - i : ℕ) : ℝ) = (n : ℝ) - 1 - i := by
    rw [Nat.sub_sub, Nat.cast_sub (by omega : 1 + i ≤ n)]
    push_cast
    ring
  rw [hcast]
  field_simp
  ring

/-- Consecutive quotients of a logspace grid are all equal, stated
cross-multiplied: g[i+1] * g[j] = g[j+1] * g[i]. -/
theorem logspace_log_spaced (la lb : ℝ) (n : ℕ) (i j : ℕ)
    (hi : i + 1 < n) (hj : j + 1 < n) :
    (logspace la lb n).getD (i + 1) 0 * (logspace la lb n).getD j 0 =
      (logspace la lb n).getD (j + 1) 0 * (logspace la lb n).getD i 0 := by
  have h2 : 2 ≤ n := by omega
  rw [logspace_getD la lb n (i+1) h2 hi, logspace_getD la lb n j h2 (by omega),
    logspace_getD la lb n (j+1) h2 hj, logspace_getD la lb n i h2 (by omega)]
  rw [← Real.rpow_add (by norm_num), ← Real.rpow_add (by norm_num)]
  congr 1
  push_cast
  ring

/-- linspace is sorted (non-strictly) descending when b ≤ a. -/
theorem linspace_sorted_ge (a b : ℝ) (n : ℕ) (h : b ≤ a) :
    (linspace a b n).Sorted (· ≥ ·) := by
  unfold linspace
  split
  · simp
  · split
    · simp
    · rename_i h0 h1
      have hn2 : (2 : ℝ) ≤ (n : ℝ) := by exact_mod_cast (by omega : 2 ≤ n)
      have hd : (b - a) / ((n : ℝ) - 1) ≤ 0 :=
        div_nonpos_of_nonpos_of_nonneg (by linarith) (by linarith)
      have key : ∀ i j : ℕ, i < j →
          a + (j : ℝ) * ((b - a) / ((n : ℝ) - 1)) ≤
            a + (i : ℝ) * ((b - a) / ((n : ℝ) - 1)) := by
        intro i j hij
        have : (i : ℝ) ≤ (j : ℝ) := by exact_mod_cast Nat.le_of_lt hij
        nlinarith
      exact List.Pairwise.map _ (fun i j hij => key i j hij) (List.pairwise_lt_range n)

/-- logspace is sorted (non-strictly) descending when lb ≤ la. -/
theorem logspace_sorted_ge (la lb : ℝ) (n : ℕ) (h : lb ≤ la) :
    (logspace la lb n).Sorted (· ≥ ·) := by
  unfold logspace
  exact List.Pairwise.map _
    (fun x y hxy => Real.rpow_le_rpow_left_iff (by norm_num : (1 : ℝ) < 10) |>.mpr hxy)
    (linspace_sorted_ge la lb n h)

theorem log10_one_eq : log10 1 = 0 := by
  simp [log10]

theorem log10_ten_eq : log10 10 = 1 := by
  simp [log10]

theorem logspace_eval_up : logspace (log10 1) (log10 10) 2 = [1, 10] := by
  rw [log10_one_eq, log10_ten_eq]
  unfold logspace linspace
  norm_num [List.range_succ, Real.rpow_zero, Real.rpow_one]

theorem logspace_eval_down : logspace (log10 10) (log10 1) 2 = [10, 1] := by
  rw [log10_one_eq, log10_ten_eq]
  unfold logspace linspace
  norm_num [List.range_succ, Real.rpow_zero, Real.rpow_one]

theorem logspace_eval_single : logspace (log10 1) (log10 1) 1 = [1] := by
  rw [log10_one_eq]
  unfold logspace linspace
  norm_num [Real.rpow_zero]

/-- Updating a key makes it present. -/
theorem hasKey_updateKey (d : Kwargs) (k : String) (v : ℝ) :
    hasKey (updateKey d k v) k = true := by
  unfold hasKey updateKey
  split
  · rename_i hc
    rw [List.contains_iff_exists_mem_beq] at hc ⊢
    obtain ⟨x, hx, hbeq⟩ := hc
    rw [List.mem_map] at hx
    obtain ⟨p, hp, hpx⟩ := hx
    refine ⟨k, ?_, by simp⟩
    rw [List.mem_map]
    refine ⟨(k, v), ?_, rfl⟩
    rw [List.mem_map]
    refine ⟨p, hp, ?_⟩
    have : p.1 = k := by
      have := beq_iff_eq.mp hbeq
      rw [← hpx] at this
      exact this.symm
    simp [this]
  · rw [List.contains_iff_exists_mem_beq]
    refine ⟨k, ?_, by simp⟩
    rw [List.mem_map]
    exact ⟨(k, v), by simp, rfl⟩


/-- The loop of sweep_alpha_fixed_point on an empty grid. -/
theorem alphaSweepLoop_nil (fpf : Solver) (funs : List Obs) (fargs : List (List ℝ))
    (vK : Kwargs) (cond : State) (vhk : Kwargs) :
    alphaSweepLoop fpf funs fargs vK [] cond vhk = (Except.ok [], [], vhk) := rfl

/-- One successful step of the loop of sweep_alpha_fixed_point. -/
theorem alphaSweepLoop_cons_ok (fpf : Solver) (funs : List Obs)
    (fargs : List (List ℝ)) (vK : Kwargs) (a : ℝ) (rest : List ℝ) (cond : State)
    (vhk : Kwargs) (s : State)
    (hf : fpf cond vK (updateKey vhk "alpha" a) = Except.ok s) :
    alphaSweepLoop fpf funs fargs vK (a :: rest) cond vhk =
      ((alphaSweepLoop fpf funs fargs vK rest s (updateKey vhk "alpha" a)).1.map
          (fun rows => obsRow funs fargs s :: rows),
        a :: (alphaSweepLoop fpf funs fargs vK rest s (updateKey vhk "alpha" a)).2.1,
        (alphaSweepLoop fpf funs fargs vK rest s (updateKey vhk "alpha" a)).2.2) := by
  simp only [alphaSweepLoop]
  rw [hf]

/-- One failing step of the loop of sweep_alpha_fixed_point. -/
theorem alphaSweepLoop_cons_error (fpf : Solver) (funs : List Obs)
    (fargs : List (List ℝ)) (vK : Kwargs) (a : ℝ) (rest : List ℝ) (cond : State)
    (vhk : Kwargs) (err : PyError)
    (hf : fpf cond vK (updateKey vhk "alpha" a) = Except.error err) :
    alphaSweepLoop fpf funs fargs vK (a :: rest) cond vhk
      = (Except.error err, [a], updateKey vhk "alpha" a) := by
  simp only [alphaSweepLoop]
  rw [hf]

/-- On a successful run, the loop's call trace is exactly the grid it was
given, in the given order, with one output row per grid point. -/
theorem alphaSweepLoop_ok_spec (fpf : Solver) (funs : List Obs)
    (fargs : List (List ℝ)) (vK : Kwargs) :
    ∀ (as : List ℝ) (cond : State) (vhk : Kwargs) (rows : List (List ℝ)),
      (alphaSweepLoop fpf funs fargs vK as cond vhk).1 = Except.ok rows →
      (alphaSweepLoop fpf funs fargs vK as cond vhk).2.1 = as ∧
        rows.length = as.length := by
  intro as
  induction as with
  | nil =>
    intro cond vhk rows h
    rw [alphaSweepLoop_nil] at h ⊢
    simp at h
    simp [← h]
  | cons a rest ih =>
    intro cond vhk rows h
    cases hf : fpf cond vK (updateKey vhk "alpha" a) with
    | error err =>
      rw [alphaSweepLoop_cons_error fpf funs fargs vK a rest cond vhk err hf] at h
      simp at h
    | ok s =>
      rw [alphaSweepLoop_cons_ok fpf funs fargs vK a rest cond vhk s hf] at h ⊢
      cases hrec : (alphaSweepLoop fpf funs fargs vK rest s (updateKey vhk "alpha" a)).1 with
      | error err =>
        rw [hrec] at h
        simp [Except.map] at h
      | ok rows' =>
        rw [hrec] at h
        simp only [Except.map] at h
        have hr : rows = obsRow funs fargs s :: rows' := by
          simpa using h.symm
        have hi := ih s (updateKey vhk "alpha" a) rows' hrec
        exact ⟨by simp [hi.1], by simp [hr, hi.2]⟩

/-- When the solver fails unconditionally, the loop on a nonempty grid
propagates that very error. -/
theorem alphaSweepLoop_error_of_failing (fpf : Solver) (funs : List Obs)
    (fargs : List (List ℝ)) (vK : Kwargs) (e : PyError)
    (hf : ∀ c k h, fpf c k h = Except.error e) (a : ℝ) (rest : List ℝ)
    (cond : State) (vhk : Kwargs) :
    (alphaSweepLoop fpf funs fargs vK (a :: rest) cond vhk).1 = Except.error e := by
  rw [alphaSweepLoop_cons_error fpf funs fargs vK a rest cond vhk e (hf _ _ _)]

/-- After processing a nonempty grid, the threaded var_hat dictionary holds
the key "alpha". -/
theorem alphaSweepLoop_final_hasKey (fpf : Solver) (funs : List Obs)
    (fargs : List (List ℝ)) (vK : Kwargs) :
    ∀ (as : List ℝ) (cond : State) (vhk : Kwargs), as ≠ [] →
      hasKey (alphaSweepLoop fpf funs fargs vK as cond vhk).2.2 "alpha" = true := by
  intro as
  induction as with
  | nil => intro _ _ hne; exact absurd rfl hne
  | cons a rest ih =>
    intro cond vhk _
    cases hf : fpf cond vK (updateKey vhk "alpha" a) with
    | error err =>
      rw [alphaSweepLoop_cons_error fpf funs fargs vK a rest cond vhk err hf]
      exact hasKey_updateKey vhk "alpha" a
    | ok s =>
      rw [alphaSweepLoop_cons_ok fpf funs fargs vK a rest cond vhk s hf]
      cases rest with
      | nil =>
        rw [alphaSweepLoop_nil]
        exact hasKey_updateKey vhk "alpha" a
      | cons b rest' =>
        exact ih s (updateKey vhk "alpha" a) (by simp)

/-- A violated precondition makes sweep_alpha_fixed_point return the
ValueError immediately, with no trace and untouched dictionaries. -/
theorem sweep_fp_reject (fpf : Solver) (amin amax : ℝ) (n : ℕ) (vK vhK : Kwargs)
    (s0 : State) (funs : List Obs) (fargs : List (List ℝ)) (dec : Bool)
    (hv : funs.length ≠ fargs.length ∨ amax < amin ∨ amin ≤ 0) :
    sweep_alpha_fixed_point fpf amin amax n vK vhK s0 funs fargs dec
      = ⟨Except.error PyError.valueError, [], vK, vhK⟩ := by
  unfold sweep_alpha_fixed_point
  by_cases h1 : funs.length ≠ fargs.length
  · rw [if_pos h1]
  · rw [if_neg h1]
    by_cases h2 : amin > amax
    · rw [if_pos h2]
    · rw [if_neg h2]
      by_cases h3 : amin ≤ 0
      · rw [if_pos h3]
      · rcases hv with hv | hv | hv
        · exact absurd hv h1
        · exact absurd hv h2
        · exact absurd hv h3

/-- Unfolding sweep_alpha_fixed_point when every precondition passes. -/
theorem sweep_fp_main (fpf : Solver) (amin amax : ℝ) (n : ℕ) (vK vhK : Kwargs)
    (s0 : State) (funs : List Obs) (fargs : List (List ℝ)) (dec : Bool)
    (h1 : funs.length = fargs.length) (h2 : amin ≤ amax) (h3 : 0 < amin) :
    sweep_alpha_fixed_point fpf amin amax n vK vhK s0 funs fargs dec =
      match (alphaSweepLoop fpf funs fargs vK (gridAlphas amin amax n dec) s0 vhK).1 with
      | Except.error err =>
        ⟨Except.error err,
          (alphaSweepLoop fpf funs fargs vK (gridAlphas amin amax n dec) s0 vhK).2.1,
          vK,
          (alphaSweepLoop fpf funs fargs vK (gridAlphas amin amax n dec) s0 vhK).2.2⟩
      | Except.ok rows =>
        if dec then
          ⟨Except.ok ((gridAlphas amin amax n dec).reverse, rows.reverse),
            (alphaSweepLoop fpf funs fargs vK (gridAlphas amin amax n dec) s0 vhK).2.1,
            vK,
            (alphaSweepLoop fpf funs fargs vK (gridAlphas amin amax n dec) s0 vhK).2.2⟩
        else
          ⟨Except.ok (gridAlphas amin amax n dec, rows),
            (alphaSweepLoop fpf funs fargs vK (gridAlphas amin amax n dec) s0 vhK).2.1,
            vK,
            (alphaSweepLoop fpf funs fargs vK (gridAlphas amin amax n dec) s0 vhK).2.2⟩ := by
  unfold sweep_alpha_fixed_point
  rw [if_neg (by simp [h1]), if_neg (by linarith), if_neg (by linarith)]

/-- sweep_alpha_fixed_point never touches the caller's var_func_kwargs. -/
theorem sweep_fp_varKFinal (fpf : Solver) (amin amax : ℝ) (n : ℕ) (vK vhK : Kwargs)
    (s0 : State) (funs : List Obs) (fargs : List (List ℝ)) (dec : Bool) :
    (sweep_alpha_fixed_point fpf amin amax n vK vhK s0 funs fargs dec).varKFinal = vK := by
  simp only [sweep_alpha_fixed_point]
  split
  · rfl
  · split
    · rfl
    · split
      · rfl
      · cases (alphaSweepLoop fpf funs fargs vK (gridAlphas amin amax n dec) s0 vhK).1 with
        | error err => rfl
        | ok rows => cases dec <;> rfl

/-- Under passing preconditions, the sweep's trace is the loop's trace. -/
theorem sweep_fp_callTrace (fpf : Solver) (amin amax : ℝ) (n : ℕ) (vK vhK : Kwargs)
    (s0 : State) (funs : List Obs) (fargs : List (List ℝ)) (dec : Bool)
    (h1 : funs.length = fargs.length) (h2 : amin ≤ amax) (h3 : 0 < amin) :
    (sweep_alpha_fixed_point fpf amin amax n vK vhK s0 funs fargs dec).callTrace
      = (alphaSweepLoop fpf funs fargs vK (gridAlphas amin amax n dec) s0 vhK).2.1 := by
  rw [sweep_fp_main fpf amin amax n vK vhK s0 funs fargs dec h1 h2 h3]
  cases (alphaSweepLoop fpf funs fargs vK (gridAlphas amin amax n dec) s0 vhK).1 with
  | error err => rfl
  | ok rows => cases dec <;> rfl

/-- Under passing preconditions, the sweep's final var_hat dictionary is the
loop's final dictionary. -/
theorem sweep_fp_varHatFinal (fpf : Solver) (amin amax : ℝ) (n : ℕ) (vK vhK : Kwargs)
    (s0 : State) (funs : List Obs) (fargs : List (List ℝ)) (dec : Bool)
    (h1 : funs.length = fargs.length) (h2 : amin ≤ amax) (h3 : 0 < amin) :
    (sweep_alpha_fixed_point fpf amin amax n vK vhK s0 funs fargs dec).varHatKFinal
      = (alphaSweepLoop fpf funs fargs vK (gridAlphas amin amax n dec) s0 vhK).2.2 := by
  rw [sweep_fp_main fpf amin amax n vK vhK s0 funs fargs dec h1 h2 h3]
  cases (alphaSweepLoop fpf funs fargs vK (gridAlphas amin amax n dec) s0 vhK).1 with
  | error err => rfl
  | ok rows => cases dec <;> rfl

/-- Under passing preconditions, a loop failure is the sweep's result. -/
theorem sweep_fp_result_of_loop_error (fpf : Solver) (amin amax : ℝ) (n : ℕ)
    (vK vhK : Kwargs) (s0 : State) (funs : List Obs) (fargs : List (List ℝ))
    (dec : Bool) (e : PyError)
    (h1 : funs.length = fargs.length) (h2 : amin ≤ amax) (h3 : 0 < amin)
    (hout : (alphaSweepLoop fpf funs fargs vK (gridAlphas amin amax n dec) s0 vhK).1
      = Except.error e) :
    (sweep_alpha_fixed_point fpf amin amax n vK vhK s0 funs fargs dec).result
      = Except.error e := by
  rw [sweep_fp_main fpf amin amax n vK vhK s0 funs fargs dec h1 h2 h3, hout]

/-- Inversion: a successful result of sweep_alpha_fixed_point means every
precondition passed, the loop succeeded, and the returned alphas and rows
are the generated ones, reversed when decreasing. -/
theorem sweep_fp_ok_inv (fpf : Solver) (amin amax : ℝ) (n : ℕ) (vK vhK : Kwargs)
    (s0 : State) (funs : List Obs) (fargs : List (List ℝ)) (dec : Bool)
    (as : List ℝ) (rows : List (List ℝ))
    (h : (sweep_alpha_fixed_point fpf amin amax n vK vhK s0 funs fargs dec).result
      = Except.ok (as, rows)) :
    (funs.length = fargs.length ∧ amin ≤ amax ∧ 0 < amin) ∧
      ∃ rows',
        (alphaSweepLoop fpf funs fargs vK (gridAlphas amin amax n dec) s0 vhK).1
            = Except.ok rows'
          ∧ as = (if dec then (gridAlphas amin amax n dec).reverse
              else gridAlphas amin amax n dec)
          ∧ rows = (if dec then rows'.reverse else rows') := by
  have h1 : funs.length = fargs.length := by
    by_contra hne
    rw [sweep_fp_reject fpf amin amax n vK vhK s0 funs fargs dec (Or.inl hne)] at h
    simp at h
  have h2 : amin ≤ amax := by
    by_contra hgt
    rw [sweep_fp_reject fpf amin amax n vK vhK s0 funs fargs dec
      (Or.inr (Or.inl (lt_of_not_le hgt)))] at h
    simp at h
  have h3 : 0 < amin := by
    by_contra hle
    rw [sweep_fp_reject fpf amin amax n vK vhK s0 funs fargs dec
      (Or.inr (Or.inr (le_of_not_lt hle)))] at h
    simp at h
  refine ⟨⟨h1, h2, h3⟩, ?_⟩
  rw [sweep_fp_main fpf amin amax n vK vhK s0 funs fargs dec h1 h2 h3] at h
  cases hout : (alphaSweepLoop fpf funs fargs vK (gridAlphas amin amax n dec) s0 vhK).1 with
  | error err =>
    rw [hout] at h
    simp at h
  | ok rows' =>
    rw [hout] at h
    refine ⟨rows', rfl, ?_⟩
    cases dec with
    | false =>
      simp only [if_neg Bool.false_ne_true] at h ⊢
      simp at h
      exact ⟨h.1.symm, h.2.symm⟩
    | true =>
      simp only [if_pos rfl] at h ⊢
      simp at h
      exact ⟨h.1.symm, h.2.symm⟩

/-- The downward-generated two-point grid, evaluated. -/
theorem gridAlphas_down_eval : gridAlphas 1 10 2 true = [10, 1] := by
  unfold gridAlphas
  rw [if_neg (by decide)]
  exact logspace_eval_down

/-- The one-point grid at alpha_min = alpha_max = 1, evaluated. -/
theorem gridAlphas_single_eval : gridAlphas 1 1 1 false = [1] := by
  unfold gridAlphas
  rw [if_pos rfl]
  exact logspace_eval_single

/-- A concrete decreasing run of sweep_alpha_fixed_point with a solver that
always succeeds: grid generated [10, 1], solved in that order, outputs
reversed to ascending on return. -/
theorem sweep_fp_run_down_eval :
    sweep_alpha_fixed_point (fun s _ _ => Except.ok s) 1 10 2 [] []
        (0.6, 0.01, 0.9) [] [] true
      = ⟨Except.ok ([1, 10], [[], []]), [10, 1], [], [("alpha", 1)]⟩ := by
  simp only [sweep_alpha_fixed_point]
  rw [if_neg (by norm_num), if_neg (by norm_num), if_neg (by norm_num)]
  rw [gridAlphas_down_eval]
  norm_num [alphaSweepLoop, updateKey, obsRow, Except.map]

/-- A concrete one-point run of sweep_alpha_fixed_point with a solver that
always succeeds. -/
theorem sweep_fp_run_single_eval :
    (sweep_alpha_fixed_point (fun s _ _ => Except.ok s) 1 1 1 [] []
      (0.6, 0.01, 0.9) [] [] false).result = Except.ok ([1], [[]]) := by
  simp only [sweep_alpha_fixed_point]
  rw [if_neg (by norm_num), if_neg (by norm_num), if_neg (by norm_num)]
  rw [gridAlphas_single_eval]
  norm_num [alphaSweepLoop, updateKey, obsRow, Except.map]

/-- Claim C1 (counterexample): the claim says the alpha grid returned by
sweep_alpha_fixed_point is sorted descending when decreasing=True; at
alpha_min=1, alpha_max=10, n_alpha_pts=2, decreasing=True with an
always-succeeding solver, the returned grid is [1, 10], which is not sorted
descending — the downward-generated grid is reversed before being
returned. -/
theorem C1_counterexample_returned_grid_not_descending :
    (sweep_alpha_fixed_point (fun s _ _ => Except.ok s) 1 10 2 [] []
        (0.6, 0.01, 0.9) [] [] true).result = Except.ok ([1, 10], [[], []])
    ∧ ¬ ([(1 : ℝ), 10].Sorted (· ≥ ·)) := by
  constructor
  · rw [sweep_fp_run_down_eval]
  · intro hs
    have h10 := (List.pairwise_cons.mp hs).1 10 (by simp)
    norm_num at h10

/-- Claim C1 (amended): for every valid input (alpha_min > 0, alpha_min ≤
alpha_max), whenever sweep_alpha_fixed_point returns, the returned alpha
grid has length n_alpha_pts, is sorted ascending for both values of the
decreasing flag (the downward-generated grid is reversed before being
returned), and is log-spaced (consecutive quotients all equal, stated
cross-multiplied). -/
theorem C1_returned_grid_length_ascending_logspaced (fpf : Solver)
    (amin amax : ℝ) (n : ℕ) (vK vhK : Kwargs) (s0 : State) (funs : List Obs)
    (fargs : List (List ℝ)) (dec : Bool) (h0 : 0 < amin) (h1 : amin ≤ amax) :
    ∀ as rows,
      (sweep_alpha_fixed_point fpf amin amax n vK vhK s0 funs fargs dec).result
        = Except.ok (as, rows) →
      as.length = n ∧ as.Sorted (· ≤ ·) ∧
        ∀ i j, i + 1 < n → j + 1 < n →
          as.getD (i + 1) 0 * as.getD j 0 = as.getD (j + 1) 0 * as.getD i 0 := by
  intro as rows h
  obtain ⟨-, rows', -, has, -⟩ :=
    sweep_fp_ok_inv fpf amin amax n vK vhK s0 funs fargs dec as rows h
  have hlog : log10 amin ≤ log10 amax :=
    Real.logb_le_logb_of_le (by norm_num) h0 h1
  cases dec with
  | false =>
    rw [if_neg Bool.false_ne_true] at has
    have hgrid : gridAlphas amin amax n false = logspace (log10 amin) (log10 amax) n := by
      unfold gridAlphas
      rw [if_pos rfl]
    subst has
    rw [hgrid]
    exact ⟨logspace_length _ _ _, logspace_sorted _ _ _ hlog,
      fun i j hi hj => logspace_log_spaced _ _ n i j hi hj⟩
  | true =>
    rw [if_pos rfl] at has
    have hgrid : gridAlphas amin amax n true = logspace (log10 amax) (log10 amin) n := by
      unfold gridAlphas
      rw [if_neg (by decide)]
    subst has
    rw [hgrid]
    by_cases hn1 : n = 1
    · subst hn1
      obtain ⟨x, hx⟩ := List.length_eq_one.mp (logspace_length (log10 amax) (log10 amin) 1)
      rw [hx]
      refine ⟨by simp, by simp, ?_⟩
      intro i j hi hj
      omega
    · rw [logspace_reverse _ _ _ hn1]
      exact ⟨logspace_length _ _ _, logspace_sorted _ _ _ hlog,
        fun i j hi hj => logspace_log_spaced _ _ n i j hi hj⟩

/-- Claim C1 (witness): the amended statement at the concrete run with
alpha_min = alpha_max = 1, one grid point, decreasing=False. -/
theorem C1_returned_grid_witness :
    [(1 : ℝ)].length = 1 ∧ [(1 : ℝ)].Sorted (· ≤ ·) ∧
      (∀ i j, i + 1 < 1 → j + 1 < 1 →
        [(1 : ℝ)].getD (i + 1) 0 * [(1 : ℝ)].getD j 0
          = [(1 : ℝ)].getD (j + 1) 0 * [(1 : ℝ)].getD i 0) :=
  C1_returned_grid_length_ascending_logspaced (fun s _ _ => Except.ok s) 1 1 1
    [] [] (0.6, 0.01, 0.9) [] [] false (by norm_num) (le_refl 1) [1] [[]]
    sweep_fp_run_single_eval

theorem gridAlphas_false (amin amax : ℝ) (n : ℕ) :
    gridAlphas amin amax n false = logspace (log10 amin) (log10 amax) n := by
  unfold gridAlphas
  rw [if_pos rfl]

theorem gridAlphas_true (amin amax : ℝ) (n : ℕ) :
    gridAlphas amin amax n true = logspace (log10 amax) (log10 amin) n := by
  unfold gridAlphas
  rw [if_neg (by decide)]

theorem gridAlphas_length (amin amax : ℝ) (n : ℕ) (dec : Bool) :
    (gridAlphas amin amax n dec).length = n := by
  cases dec with
  | false => rw [gridAlphas_false]; exact logspace_length _ _ _
  | true => rw [gridAlphas_true]; exact logspace_length _ _ _

/-- The loop of the optimal-lambda sweep on an empty grid. -/
theorem optSweepLoop_nil (fopt : OptFinder) (funs : List Obs)
    (fargs : List (List ℝ)) (cond : State) (regOpt : ℝ) (cvk cvhk : Kwargs) :
    optSweepLoop fopt funs fargs [] cond regOpt cvk cvhk = (Except.ok [], []) := rfl

/-- One successful step of the optimal-lambda loop. -/
theorem optSweepLoop_cons_ok (fopt : OptFinder) (funs : List Obs)
    (fargs : List (List ℝ)) (a : ℝ) (rest : List ℝ) (cond : State) (regOpt : ℝ)
    (cvk cvhk : Kwargs) (fmin ropt : ℝ) (s : State) (outs : List ℝ)
    (hf : fopt funs fargs (updateKey cvk "reg_param" regOpt)
        (updateKey cvhk "alpha" a) regOpt cond = Except.ok (fmin, ropt, s, outs)) :
    optSweepLoop fopt funs fargs (a :: rest) cond regOpt cvk cvhk =
      ((optSweepLoop fopt funs fargs rest s ropt (updateKey cvk "reg_param" regOpt)
          (updateKey cvhk "alpha" a)).1.map (fun rows => (fmin, ropt, outs) :: rows),
        a :: (optSweepLoop fopt funs fargs rest s ropt (updateKey cvk "reg_param" regOpt)
          (updateKey cvhk "alpha" a)).2) := by
  simp only [optSweepLoop]
  rw [hf]

/-- One failing step of the optimal-lambda loop. -/
theorem optSweepLoop_cons_error (fopt : OptFinder) (funs : List Obs)
    (fargs : List (List ℝ)) (a : ℝ) (rest : List ℝ) (cond : State) (regOpt : ℝ)
    (cvk cvhk : Kwargs) (err : PyError)
    (hf : fopt funs fargs (updateKey cvk "reg_param" regOpt)
        (updateKey cvhk "alpha" a) regOpt cond = Except.error err) :
    optSweepLoop fopt funs fargs (a :: rest) cond regOpt cvk cvhk
      = (Except.error err, [a]) := by
  simp only [optSweepLoop]
  rw [hf]

/-- On a successful run, the optimal-lambda loop's call trace is exactly the
grid it was given, in the given order. -/
theorem optSweepLoop_trace_of_ok (fopt : OptFinder) (funs : List Obs)
    (fargs : List (List ℝ)) :
    ∀ (as : List ℝ) (cond : State) (regOpt : ℝ) (cvk cvhk : Kwargs)
      (rows : List (ℝ × ℝ × List ℝ)),
      (optSweepLoop fopt funs fargs as cond regOpt cvk cvhk).1 = Except.ok rows →
      (optSweepLoop fopt funs fargs as cond regOpt cvk cvhk).2 = as := by
  intro as
  induction as with
  | nil => intro _ _ _ _ _ _; rfl
  | cons a rest ih =>
    intro cond regOpt cvk cvhk rows h
    cases hf : fopt funs fargs (updateKey cvk "reg_param" regOpt)
        (updateKey cvhk "alpha" a) regOpt cond with
    | error err =>
      rw [optSweepLoop_cons_error fopt funs fargs a rest cond regOpt cvk cvhk err hf] at h
      simp at h
    | ok r4 =>
      obtain ⟨fmin, ropt, s, outs⟩ := r4
      rw [optSweepLoop_cons_ok fopt funs fargs a rest cond regOpt cvk cvhk
        fmin ropt s outs hf] at h ⊢
      cases hrec : (optSweepLoop fopt funs fargs rest s ropt
          (updateKey cvk "reg_param" regOpt) (updateKey cvhk "alpha" a)).1 with
      | error err =>
        rw [hrec] at h
        simp [Except.map] at h
      | ok rows' =>
        simp only []
        rw [ih s ropt (updateKey cvk "reg_param" regOpt) (updateKey cvhk "alpha" a)
          rows' hrec]

/-- When the inner optimiser fails unconditionally, the optimal-lambda loop
on a nonempty grid propagates that very error. -/
theorem optSweepLoop_error_of_failing (fopt : OptFinder) (funs : List Obs)
    (fargs : List (List ℝ)) (e : PyError)
    (hf : ∀ fs fas k h r c, fopt fs fas k h r c = Except.error e)
    (a : ℝ) (rest : List ℝ) (cond : State) (regOpt : ℝ) (cvk cvhk : Kwargs) :
    (optSweepLoop fopt funs fargs (a :: rest) cond regOpt cvk cvhk).1
      = Except.error e := by
  rw [optSweepLoop_cons_error fopt funs fargs a rest cond regOpt cvk cvhk e
    (hf _ _ _ _ _ _)]

/-- A violated precondition makes sweep_alpha_optimal_lambda_fixed_point
return the ValueError immediately, with no trace and untouched
dictionaries. -/
theorem sweep_opt_reject (fopt : OptFinder) (amin amax : ℝ) (n : ℕ) (lg : ℝ)
    (vK vhK : Kwargs) (s0 : State) (funs : List Obs) (fargs : List (List ℝ))
    (dec : Bool) (hv : funs.length ≠ fargs.length ∨ amax < amin ∨ amin ≤ 0) :
    sweep_alpha_optimal_lambda_fixed_point fopt amin amax n lg vK vhK s0 funs fargs dec
      = ⟨Except.error PyError.valueError, [], vK, vhK⟩ := by
  unfold sweep_alpha_optimal_lambda_fixed_point
  by_cases h1 : funs.length ≠ fargs.length
  · rw [if_pos h1]
  · rw [if_neg h1]
    by_cases h2 : amin > amax
    · rw [if_pos h2]
    · rw [if_neg h2]
      by_cases h3 : amin ≤ 0
      · rw [if_pos h3]
      · rcases hv with hv | hv | hv
        · exact absurd hv h1
        · exact absurd hv h2
        · exact absurd hv h3

/-- Unfolding sweep_alpha_optimal_lambda_fixed_point when every precondition
passes. -/
theorem sweep_opt_main (fopt : OptFinder) (amin amax : ℝ) (n : ℕ) (lg : ℝ)
    (vK vhK : Kwargs) (s0 : State) (funs : List Obs) (fargs : List (List ℝ))
    (dec : Bool)
    (h1 : funs.length = fargs.length) (h2 : amin ≤ amax) (h3 : 0 < amin) :
    sweep_alpha_optimal_lambda_fixed_point fopt amin amax n lg vK vhK s0 funs fargs dec =
      match (optSweepLoop fopt funs fargs (gridAlphas amin amax n dec) s0 lg
          (copyDict vK) (copyDict vhK)).1 with
      | Except.error err =>
        ⟨Except.error err,
          (optSweepLoop fopt funs fargs (gridAlphas amin amax n dec) s0 lg
            (copyDict vK) (copyDict vhK)).2, vK, vhK⟩
      | Except.ok rows =>
        if dec then
          ⟨Except.ok ((gridAlphas amin amax n dec).reverse,
              (rows.map (fun r => r.1)).reverse,
              (rows.map (fun r => r.2.1)).reverse,
              (rows.map (fun r => r.2.2)).reverse),
            (optSweepLoop fopt funs fargs (gridAlphas amin amax n dec) s0 lg
              (copyDict vK) (copyDict vhK)).2, vK, vhK⟩
        else
          ⟨Except.ok (gridAlphas amin amax n dec,
              rows.map (fun r => r.1),
              rows.map (fun r => r.2.1),
              rows.map (fun r => r.2.2)),
            (optSweepLoop fopt funs fargs (gridAlphas amin amax n dec) s0 lg
              (copyDict vK) (copyDict vhK)).2, vK, vhK⟩ := by
  unfold sweep_alpha_optimal_lambda_fixed_point
  rw [if_neg (by simp [h1]), if_neg (by linarith), if_neg (by linarith)]

/-- The optimal-lambda sweep returns the caller's var_func_kwargs content
unchanged (a copy is taken at entry). -/
theorem sweep_opt_varK (fopt : OptFinder) (amin amax : ℝ) (n : ℕ) (lg : ℝ)
    (vK vhK : Kwargs) (s0 : State) (funs : List Obs) (fargs : List (List ℝ))
    (dec : Bool) :
    (sweep_alpha_optimal_lambda_fixed_point fopt amin amax n lg vK vhK s0
      funs fargs dec).varKFinal = vK := by
  simp only [sweep_alpha_optimal_lambda_fixed_point]
  split
  · rfl
  · split
    · rfl
    · split
      · rfl
      · cases (optSweepLoop fopt funs fargs (gridAlphas amin amax n dec) s0 lg
            (copyDict vK) (copyDict vhK)).1 with
        | error err => rfl
        | ok rows => cases dec <;> rfl

/-- The optimal-lambda sweep returns the caller's var_hat_func_kwargs
content unchanged (a copy is taken at entry). -/
theorem sweep_opt_varHat (fopt : OptFinder) (amin amax : ℝ) (n : ℕ) (lg : ℝ)
    (vK vhK : Kwargs) (s0 : State) (funs : List Obs) (fargs : List (List ℝ))
    (dec : Bool) :
    (sweep_alpha_optimal_lambda_fixed_point fopt amin amax n lg vK vhK s0
      funs fargs dec).varHatKFinal = vhK := by
  simp only [sweep_alpha_optimal_lambda_fixed_point]
  split
  · rfl
  · split
    · rfl
    · split
      · rfl
      · cases (optSweepLoop fopt funs fargs (gridAlphas amin amax n dec) s0 lg
            (copyDict vK) (copyDict vhK)).1 with
        | error err => rfl
        | ok rows => cases dec <;> rfl

/-- Under passing preconditions, the optimal-lambda sweep's trace is its
loop's trace. -/
theorem sweep_opt_callTrace (fopt : OptFinder) (amin amax : ℝ) (n : ℕ) (lg : ℝ)
    (vK vhK : Kwargs) (s0 : State) (funs : List Obs) (fargs : List (List ℝ))
    (dec : Bool)
    (h1 : funs.length = fargs.length) (h2 : amin ≤ amax) (h3 : 0 < amin) :
    (sweep_alpha_optimal_lambda_fixed_point fopt amin amax n lg vK vhK s0
        funs fargs dec).callTrace
      = (optSweepLoop fopt funs fargs (gridAlphas amin amax n dec) s0 lg
          (copyDict vK) (copyDict vhK)).2 := by
  rw [sweep_opt_main fopt amin amax n lg vK vhK s0 funs fargs dec h1 h2 h3]
  cases (optSweepLoop fopt funs fargs (gridAlphas amin amax n dec) s0 lg
      (copyDict vK) (copyDict vhK)).1 with
  | error err => rfl
  | ok rows => cases dec <;> rfl

/-- Inversion: a successful result of the optimal-lambda sweep means every
precondition passed, the loop succeeded, and the returned alphas are the
generated ones, reversed when decreasing. -/
theorem sweep_opt_ok_inv (fopt : OptFinder) (amin amax : ℝ) (n : ℕ) (lg : ℝ)
    (vK vhK : Kwargs) (s0 : State) (funs : List Obs) (fargs : List (List ℝ))
    (dec : Bool) (as fv ro : List ℝ) (ov : List (List ℝ))
    (h : (sweep_alpha_optimal_lambda_fixed_point fopt amin amax n lg vK vhK s0
        funs fargs dec).result = Except.ok (as, fv, ro, ov)) :
    (funs.length = fargs.length ∧ amin ≤ amax ∧ 0 < amin) ∧
      ∃ rows,
        (optSweepLoop fopt funs fargs (gridAlphas amin amax n dec) s0 lg
            (copyDict vK) (copyDict vhK)).1 = Except.ok rows
          ∧ as = (if dec then (gridAlphas amin amax n dec).reverse
              else gridAlphas amin amax n dec) := by
  have h1 : funs.length = fargs.length := by
    by_contra hne
    rw [sweep_opt_reject fopt amin amax n lg vK vhK s0 funs fargs dec (Or.inl hne)] at h
    simp at h
  have h2 : amin ≤ amax := by
    by_contra hgt
    rw [sweep_opt_reject fopt amin amax n lg vK vhK s0 funs fargs dec
      (Or.inr (Or.inl (lt_of_not_le hgt)))] at h
    simp at h
  have h3 : 0 < amin := by
    by_contra hle
    rw [sweep_opt_reject fopt amin amax n lg vK vhK s0 funs fargs dec
      (Or.inr (Or.inr (le_of_not_lt hle)))] at h
    simp at h
  refine ⟨⟨h1, h2, h3⟩, ?_⟩
  rw [sweep_opt_main fopt amin amax n lg vK vhK s0 funs fargs dec h1 h2 h3] at h
  cases hout : (optSweepLoop fopt funs fargs (gridAlphas amin amax n dec) s0 lg
      (copyDict vK) (copyDict vhK)).1 with
  | error err =>
    rw [hout] at h
    simp at h
  | ok rows =>
    rw [hout] at h
    refine ⟨rows, rfl, ?_⟩
    cases dec with
    | false =>
      simp only [if_neg Bool.false_ne_true] at h ⊢
      simp at h
      exact h.1.symm
    | true =>
      simp only [if_pos rfl] at h ⊢
      simp at h
      exact h.1.symm

/-- The loop of the two-parameter optimal sweep on an empty grid. -/
theorem optHubSweepLoop_nil (fopt : OptFinder2) (funs : List Obs)
    (fargs : List (List ℝ)) (cond : State) (regOpt hubOpt : ℝ) (cvk cvhk : Kwargs) :
    optHubSweepLoop fopt funs fargs [] cond regOpt hubOpt cvk cvhk
      = (Except.ok [], []) := rfl

/-- One successful step of the two-parameter optimal loop. -/
theorem optHubSweepLoop_cons_ok (fopt : OptFinder2) (funs : List Obs)
    (fargs : List (List ℝ)) (a : ℝ) (rest : List ℝ) (cond : State)
    (regOpt hubOpt : ℝ) (cvk cvhk : Kwargs) (fmin : ℝ) (ropt : ℝ × ℝ) (s : State)
    (outs : List ℝ)
    (hf : fopt funs fargs (updateKey cvk "reg_param" regOpt)
        (updateKey (updateKey cvhk "alpha" a) "a" hubOpt) (regOpt, hubOpt) cond
        = Except.ok (fmin, ropt, s, outs)) :
    optHubSweepLoop fopt funs fargs (a :: rest) cond regOpt hubOpt cvk cvhk =
      ((optHubSweepLoop fopt funs fargs rest s ropt.1 ropt.2
          (updateKey cvk "reg_param" regOpt)
          (updateKey (updateKey cvhk "alpha" a) "a" hubOpt)).1.map
            (fun rows => (fmin, ropt.1, ropt.2, outs) :: rows),
        a :: (optHubSweepLoop fopt funs fargs rest s ropt.1 ropt.2
          (updateKey cvk "reg_param" regOpt)
          (updateKey (updateKey cvhk "alpha" a) "a" hubOpt)).2) := by
  simp only [optHubSweepLoop]
  rw [hf]

/-- One failing step of the two-parameter optimal loop. -/
theorem optHubSweepLoop_cons_error (fopt : OptFinder2) (funs : List Obs)
    (fargs : List (List ℝ)) (a : ℝ) (rest : List ℝ) (cond : State)
    (regOpt hubOpt : ℝ) (cvk cvhk : Kwargs) (err : PyError)
    (hf : fopt funs fargs (updateKey cvk "reg_param" regOpt)
        (updateKey (updateKey cvhk "alpha" a) "a" hubOpt) (regOpt, hubOpt) cond
        = Except.error err) :
    optHubSweepLoop fopt funs fargs (a :: rest) cond regOpt hubOpt cvk cvhk
      = (Except.error err, [a]) := by
  simp only [optHubSweepLoop]
  rw [hf]

/-- On a successful run, the two-parameter optimal loop's call trace is
exactly the grid it was given, in the given order. -/
theorem optHubSweepLoop_trace_of_ok (fopt : OptFinder2) (funs : List Obs)
    (fargs : List (List ℝ)) :
    ∀ (as : List ℝ) (cond : State) (regOpt hubOpt : ℝ) (cvk cvhk : Kwargs)
      (rows : List (ℝ × ℝ × ℝ × List ℝ)),
      (optHubSweepLoop fopt funs fargs as cond regOpt hubOpt cvk cvhk).1
        = Except.ok rows →
      (optHubSweepLoop fopt funs fargs as cond regOpt hubOpt cvk cvhk).2 = as := by
  intro as
  induction as with
  | nil => intro _ _ _ _ _ _ _; rfl
  | cons a rest ih =>
    intro cond regOpt hubOpt cvk cvhk rows h
    cases hf : fopt funs fargs (updateKey cvk "reg_param" regOpt)
        (updateKey (updateKey cvhk "alpha" a) "a" hubOpt) (regOpt, hubOpt) cond with
    | error err =>
      rw [optHubSweepLoop_cons_error fopt funs fargs a rest cond regOpt hubOpt
        cvk cvhk err hf] at h
      simp at h
    | ok r4 =>
      obtain ⟨fmin, ropt, s, outs⟩ := r4
      rw [optHubSweepLoop_cons_ok fopt funs fargs a rest cond regOpt hubOpt
        cvk cvhk fmin ropt s outs hf] at h ⊢
      cases hrec : (optHubSweepLoop fopt funs fargs rest s ropt.1 ropt.2
          (updateKey cvk "reg_param" regOpt)
          (updateKey (updateKey cvhk "alpha" a) "a" hubOpt)).1 with
      | error err =>
        rw [hrec] at h
        simp [Except.map] at h
      | ok rows' =>
        simp only []
        rw [ih s ropt.1 ropt.2 (updateKey cvk "reg_param" regOpt)
          (updateKey (updateKey cvhk "alpha" a) "a" hubOpt) rows' hrec]

/-- When the inner optimiser fails unconditionally, the two-parameter loop
on a nonempty grid propagates that very error. -/
theorem optHubSweepLoop_error_of_failing (fopt : OptFinder2) (funs : List Obs)
    (fargs : List (List ℝ)) (e : PyError)
    (hf : ∀ fs fas k h r c, fopt fs fas k h r c = Except.error e)
    (a : ℝ) (rest : List ℝ) (cond : State) (regOpt hubOpt : ℝ) (cvk cvhk : Kwargs) :
    (optHubSweepLoop fopt funs fargs (a :: rest) cond regOpt hubOpt cvk cvhk).1
      = Except.error e := by
  rw [optHubSweepLoop_cons_error fopt funs fargs a rest cond regOpt hubOpt
    cvk cvhk e (hf _ _ _ _ _ _)]

/-- A violated precondition makes the two-parameter optimal sweep return the
ValueError immediately, with no trace and untouched dictionaries. -/
theorem sweep_hub_reject (fopt : OptFinder2) (amin amax : ℝ) (n : ℕ)
    (ig : ℝ × ℝ) (vK vhK : Kwargs) (s0 : State) (funs : List Obs)
    (fargs : List (List ℝ)) (dec : Bool)
    (hv : funs.length ≠ fargs.length ∨ amax < amin ∨ amin ≤ 0) :
    sweep_alpha_optimal_lambda_hub_param_fixed_point fopt amin amax n ig vK vhK
        s0 funs fargs dec
      = ⟨Except.error PyError.valueError, [], vK, vhK⟩ := by
  unfold sweep_alpha_optimal_lambda_hub_param_fixed_point
  by_cases h1 : funs.length ≠ fargs.length
  · rw [if_pos h1]
  · rw [if_neg h1]
    by_cases h2 : amin > amax
    · rw [if_pos h2]
    · rw [if_neg h2]
      by_cases h3 : amin ≤ 0
      · rw [if_pos h3]
      · rcases hv with hv | hv | hv
        · exact absurd hv h1
        · exact absurd hv h2
        · exact absurd hv h3

/-- Unfolding the two-parameter optimal sweep when every precondition
passes. -/
theorem sweep_hub_main (fopt : OptFinder2) (amin amax : ℝ) (n : ℕ)
    (ig : ℝ × ℝ) (vK vhK : Kwargs) (s0 : State) (funs : List Obs)
    (fargs : List (List ℝ)) (dec : Bool)
    (h1 : funs.length = fargs.length) (h2 : amin ≤ amax) (h3 : 0 < amin) :
    sweep_alpha_optimal_lambda_hub_param_fixed_point fopt amin amax n ig vK vhK
        s0 funs fargs dec =
      match (optHubSweepLoop fopt funs fargs (gridAlphas amin amax n dec) s0
          ig.1 ig.2 (copyDict vK) (copyDict vhK)).1 with
      | Except.error err =>
        ⟨Except.error err,
          (optHubSweepLoop fopt funs fargs (gridAlphas amin amax n dec) s0
            ig.1 ig.2 (copyDict vK) (copyDict vhK)).2, vK, vhK⟩
      | Except.ok rows =>
        if dec then
          ⟨Except.ok ((gridAlphas amin amax n dec).reverse,
              (rows.map (fun r => r.1)).reverse,
              ((rows.map (fun r => r.2.1)).reverse,
                (rows.map (fun r => r.2.2.1)).reverse),
              (rows.map (fun r => r.2.2.2)).reverse),
            (optHubSweepLoop fopt funs fargs (gridAlphas amin amax n dec) s0
              ig.1 ig.2 (copyDict vK) (copyDict vhK)).2, vK, vhK⟩
        else
          ⟨Except.ok (gridAlphas amin amax n dec,
              rows.map (fun r => r.1),
              (rows.map (fun r => r.2.1), rows.map (fun r => r.2.2.1)),
              rows.map (fun r => r.2.2.2)),
            (optHubSweepLoop fopt funs fargs (gridAlphas amin amax n dec) s0
              ig.1 ig.2 (copyDict vK) (copyDict vhK)).2, vK, vhK⟩ := by
  unfold sweep_alpha_optimal_lambda_hub_param_fixed_point
  rw [if_neg (by simp [h1]), if_neg (by linarith), if_neg (by linarith)]

/-- The two-parameter optimal sweep returns the caller's var_func_kwargs
content unchanged (a copy is taken at entry). -/
theorem sweep_hub_varK (fopt : OptFinder2) (amin amax : ℝ) (n : ℕ)
    (ig : ℝ × ℝ) (vK vhK : Kwargs) (s0 : State) (funs : List Obs)
    (fargs : List (List ℝ)) (dec : Bool) :
    (sweep_alpha_optimal_lambda_hub_param_fixed_point fopt amin amax n ig vK vhK
      s0 funs fargs dec).varKFinal = vK := by
  simp only [sweep_alpha_optimal_lambda_hub_param_fixed_point]
  split
  · rfl
  · split
    · rfl
    · split
      · rfl
      · cases (optHubSweepLoop fopt funs fargs (gridAlphas amin amax n dec) s0
            ig.1 ig.2 (copyDict vK) (copyDict vhK)).1 with
        | error err => rfl
        | ok rows => cases dec <;> rfl

/-- The two-parameter optimal sweep returns the caller's var_hat_func_kwargs
content unchanged (a copy is taken at entry). -/
theorem sweep_hub_varHat (fopt : OptFinder2) (amin amax : ℝ) (n : ℕ)
    (ig : ℝ × ℝ) (vK vhK : Kwargs) (s0 : State) (funs : List Obs)
    (fargs : List (List ℝ)) (dec : Bool) :
    (sweep_alpha_optimal_lambda_hub_param_fixed_point fopt amin amax n ig vK vhK
      s0 funs fargs dec).varHatKFinal = vhK := by
  simp only [sweep_alpha_optimal_lambda_hub_param_fixed_point]
  split
  · rfl
  · split
    · rfl
    · split
      · rfl
      · cases (optHubSweepLoop fopt funs fargs (gridAlphas amin amax n dec) s0
            ig.1 ig.2 (copyDict vK) (copyDict vhK)).1 with
        | error err => rfl
        | ok rows => cases dec <;> rfl

/-- Under passing preconditions, the two-parameter optimal sweep's trace is
its loop's trace. -/
theorem sweep_hub_callTrace (fopt : OptFinder2) (amin amax : ℝ) (n : ℕ)
    (ig : ℝ × ℝ) (vK vhK : Kwargs) (s0 : State) (funs : List Obs)
    (fargs : List (List ℝ)) (dec : Bool)
    (h1 : funs.length = fargs.length) (h2 : amin ≤ amax) (h3 : 0 < amin) :
    (sweep_alpha_optimal_lambda_hub_param_fixed_point fopt amin amax n ig vK vhK
        s0 funs fargs dec).callTrace
      = (optHubSweepLoop fopt funs fargs (gridAlphas amin amax n dec) s0
          ig.1 ig.2 (copyDict vK) (copyDict vhK)).2 := by
  rw [sweep_hub_main fopt amin amax n ig vK vhK s0 funs fargs dec h1 h2 h3]
  cases (optHubSweepLoop fopt funs fargs (gridAlphas amin amax n dec) s0
      ig.1 ig.2 (copyDict vK) (copyDict vhK)).1 with
  | error err => rfl
  | ok rows => cases dec <;> rfl

/-- Inversion: a successful result of the two-parameter optimal sweep means
every precondition passed, the loop succeeded, and the returned alphas are
the generated ones, reversed when decreasing. -/
theorem sweep_hub_ok_inv (fopt : OptFinder2) (amin amax : ℝ) (n : ℕ)
    (ig : ℝ × ℝ) (vK vhK : Kwargs) (s0 : State) (funs : List Obs)
    (fargs : List (List ℝ)) (dec : Bool) (as fv : List ℝ)
    (rh : List ℝ × List ℝ) (ov : List (List ℝ))
    (h : (sweep_alpha_optimal_lambda_hub_param_fixed_point fopt amin amax n ig
        vK vhK s0 funs fargs dec).result = Except.ok (as, fv, rh, ov)) :
    (funs.length = fargs.length ∧ amin ≤ amax ∧ 0 < amin) ∧
      ∃ rows,
        (optHubSweepLoop fopt funs fargs (gridAlphas amin amax n dec) s0
            ig.1 ig.2 (copyDict vK) (copyDict vhK)).1 = Except.ok rows
          ∧ as = (if dec then (gridAlphas amin amax n dec).reverse
              else gridAlphas amin amax n dec) := by
  have h1 : funs.length = fargs.length := by
    by_contra hne
    rw [sweep_hub_reject fopt amin amax n ig vK vhK s0 funs fargs dec (Or.inl hne)] at h
    simp at h
  have h2 : amin ≤ amax := by
    by_contra hgt
    rw [sweep_hub_reject fopt amin amax n ig vK vhK s0 funs fargs dec
      (Or.inr (Or.inl (lt_of_not_le hgt)))] at h
    simp at h
  have h3 : 0 < amin := by
    by_contra hle
    rw [sweep_hub_reject fopt amin amax n ig vK vhK s0 funs fargs dec
      (Or.inr (Or.inr (le_of_not_lt hle)))] at h
    simp at h
  refine ⟨⟨h1, h2, h3⟩, ?_⟩
  rw [sweep_hub_main fopt amin amax n ig vK vhK s0 funs fargs dec h1 h2 h3] at h
  cases hout : (optHubSweepLoop fopt funs fargs (gridAlphas amin amax n dec) s0
      ig.1 ig.2 (copyDict vK) (copyDict vhK)).1 with
  | error err =>
    rw [hout] at h
    simp at h
  | ok rows =>
    rw [hout] at h
    refine ⟨rows, rfl, ?_⟩
    cases dec with
    | false =>
      simp only [if_neg Bool.false_ne_true] at h ⊢
      simp at h
      exact h.1.symm
    | true =>
      simp only [if_pos rfl] at h ⊢
      simp at h
      exact h.1.symm

theorem gridAlphas_sorted_false (amin amax : ℝ) (n : ℕ) (h0 : 0 < amin)
    (h1 : amin ≤ amax) : (gridAlphas amin amax n false).Sorted (· ≤ ·) := by
  rw [gridAlphas_false]
  exact logspace_sorted _ _ _ (Real.logb_le_logb_of_le (by norm_num) h0 h1)

theorem gridAlphas_sorted_true (amin amax : ℝ) (n : ℕ) (h0 : 0 < amin)
    (h1 : amin ≤ amax) : (gridAlphas amin amax n true).Sorted (· ≥ ·) := by
  rw [gridAlphas_true]
  exact logspace_sorted_ge _ _ _ (Real.logb_le_logb_of_le (by norm_num) h0 h1)

/-- The grid as returned (reversed when decreasing) is always sorted
ascending. -/
theorem returnedAlphas_sorted (amin amax : ℝ) (n : ℕ) (dec : Bool)
    (h0 : 0 < amin) (h1 : amin ≤ amax) :
    (if dec then (gridAlphas amin amax n dec).reverse
      else gridAlphas amin amax n dec).Sorted (· ≤ ·) := by
  have hlog : log10 amin ≤ log10 amax :=
    Real.logb_le_logb_of_le (by norm_num) h0 h1
  cases dec with
  | false =>
    rw [if_neg Bool.false_ne_true, gridAlphas_false]
    exact logspace_sorted _ _ _ hlog
  | true =>
    rw [if_pos rfl, gridAlphas_true]
    by_cases hn1 : n = 1
    · subst hn1
      obtain ⟨x, hx⟩ := List.length_eq_one.mp (logspace_length (log10 amax) (log10 amin) 1)
      rw [hx]
      simp
    · rw [logspace_reverse _ _ _ hn1]
      exact logspace_sorted _ _ _ hlog

/-- Claim C2 (counterexample): the claim says the internal solve iteration
always visits the alpha grid in ascending order; at alpha_min=1,
alpha_max=10, n_alpha_pts=2, decreasing=True with an always-succeeding
solver, the solver call trace of sweep_alpha_fixed_point is [10, 1] — the
iteration runs in descending order, and it is the returned arrays that come
out ascending after the final reversal. -/
theorem C2_counterexample_internal_order_descends :
    (sweep_alpha_fixed_point (fun s _ _ => Except.ok s) 1 10 2 [] []
        (0.6, 0.01, 0.9) [] [] true).callTrace = [10, 1]
    ∧ ¬ ([(10 : ℝ), 1].Sorted (· ≤ ·)) := by
  constructor
  · rw [sweep_fp_run_down_eval]
  · intro hs
    have h1 := (List.pairwise_cons.mp hs).1 1 (by simp)
    norm_num at h1

/-- Claim C2 (amended): in sweep_alpha_fixed_point and the two
optimal-lambda variants, on a successful run the internal iteration visits
the generated alpha grid in the generated order — ascending when
decreasing=False and descending when decreasing=True — and the returned
alpha array is always in ascending order, because the final reversal applied
when decreasing=True undoes the descending generation order. -/
theorem C2_trace_follows_flag_output_ascending :
    (∀ (fpf : Solver) (amin amax : ℝ) (n : ℕ) (vK vhK : Kwargs) (s0 : State)
        (funs : List Obs) (fargs : List (List ℝ)) (dec : Bool)
        (as : List ℝ) (rows : List (List ℝ)),
      0 < amin → amin ≤ amax →
      (sweep_alpha_fixed_point fpf amin amax n vK vhK s0 funs fargs dec).result
          = Except.ok (as, rows) →
      (sweep_alpha_fixed_point fpf amin amax n vK vhK s0 funs fargs dec).callTrace
          = gridAlphas amin amax n dec
        ∧ (dec = false →
            (sweep_alpha_fixed_point fpf amin amax n vK vhK s0 funs fargs
              dec).callTrace.Sorted (· ≤ ·))
        ∧ (dec = true →
            (sweep_alpha_fixed_point fpf amin amax n vK vhK s0 funs fargs
              dec).callTrace.Sorted (· ≥ ·))
        ∧ as.Sorted (· ≤ ·))
    ∧ (∀ (fopt : OptFinder) (amin amax : ℝ) (n : ℕ) (lg : ℝ) (vK vhK : Kwargs)
        (s0 : State) (funs : List Obs) (fargs : List (List ℝ)) (dec : Bool)
        (as fv ro : List ℝ) (ov : List (List ℝ)),
      0 < amin → amin ≤ amax →
      (sweep_alpha_optimal_lambda_fixed_point fopt amin amax n lg vK vhK s0
          funs fargs dec).result = Except.ok (as, fv, ro, ov) →
      (sweep_alpha_optimal_lambda_fixed_point fopt amin amax n lg vK vhK s0
          funs fargs dec).callTrace = gridAlphas amin amax n dec
        ∧ as.Sorted (· ≤ ·))
    ∧ (∀ (fopt : OptFinder2) (amin amax : ℝ) (n : ℕ) (ig : ℝ × ℝ)
        (vK vhK : Kwargs) (s0 : State) (funs : List Obs)
        (fargs : List (List ℝ)) (dec : Bool) (as fv : List ℝ)
        (rh : List ℝ × List ℝ) (ov : List (List ℝ)),
      0 < amin → amin ≤ amax →
      (sweep_alpha_optimal_lambda_hub_param_fixed_point fopt amin amax n ig vK
          vhK s0 funs fargs dec).result = Except.ok (as, fv, rh, ov) →
      (sweep_alpha_optimal_lambda_hub_param_fixed_point fopt amin amax n ig vK
          vhK s0 funs fargs dec).callTrace = gridAlphas amin amax n dec
        ∧ as.Sorted (· ≤ ·)) := by
  refine ⟨?_, ?_, ?_⟩
  · intro fpf amin amax n vK vhK s0 funs fargs dec as rows h0 h1 h
    obtain ⟨⟨hl, hle, hpos⟩, rows', hout, has, -⟩ :=
      sweep_fp_ok_inv fpf amin amax n vK vhK s0 funs fargs dec as rows h
    have htr : (sweep_alpha_fixed_point fpf amin amax n vK vhK s0 funs fargs
        dec).callTrace = gridAlphas amin amax n dec := by
      rw [sweep_fp_callTrace fpf amin amax n vK vhK s0 funs fargs dec hl hle hpos]
      exact (alphaSweepLoop_ok_spec fpf funs fargs vK (gridAlphas amin amax n dec)
        s0 vhK rows' hout).1
    refine ⟨htr, ?_, ?_, ?_⟩
    · intro hdec
      subst hdec
      rw [htr]
      exact gridAlphas_sorted_false amin amax n h0 h1
    · intro hdec
      subst hdec
      rw [htr]
      exact gridAlphas_sorted_true amin amax n h0 h1
    · rw [has]
      exact returnedAlphas_sorted amin amax n dec h0 h1
  · intro fopt amin amax n lg vK vhK s0 funs fargs dec as fv ro ov h0 h1 h
    obtain ⟨⟨hl, hle, hpos⟩, rows, hout, has⟩ :=
      sweep_opt_ok_inv fopt amin amax n lg vK vhK s0 funs fargs dec as fv ro ov h
    constructor
    · rw [sweep_opt_callTrace fopt amin amax n lg vK vhK s0 funs fargs dec hl hle hpos]
      exact optSweepLoop_trace_of_ok fopt funs fargs (gridAlphas amin amax n dec)
        s0 lg (copyDict vK) (copyDict vhK) rows hout
    · rw [has]
      exact returnedAlphas_sorted amin amax n dec h0 h1
  · intro fopt amin amax n ig vK vhK s0 funs fargs dec as fv rh ov h0 h1 h
    obtain ⟨⟨hl, hle, hpos⟩, rows, hout, has⟩ :=
      sweep_hub_ok_inv fopt amin amax n ig vK vhK s0 funs fargs dec as fv rh ov h
    constructor
    · rw [sweep_hub_callTrace fopt amin amax n ig vK vhK s0 funs fargs dec hl hle hpos]
      exact optHubSweepLoop_trace_of_ok fopt funs fargs (gridAlphas amin amax n dec)
        s0 ig.1 ig.2 (copyDict vK) (copyDict vhK) rows hout
    · rw [has]
      exact returnedAlphas_sorted amin amax n dec h0 h1

theorem getD_of_le {α : Type} (l : List α) (i : ℕ) (d : α) (h : l.length ≤ i) :
    l.getD i d = d := by
  simp [List.getD_eq_getElem?_getD, List.getElem?_eq_none h]

theorem getD_map_of_lt {α β : Type} (f : α → β) (l : List α) (i : ℕ) (d : β)
    (d' : α) (h : i < l.length) : (l.map f).getD i d = f (l.getD i d') := by
  rw [List.getD_eq_getElem _ _ (by simpa using h), List.getD_eq_getElem _ _ h,
    List.getElem_map]

theorem getD_reverse_of_lt {α : Type} (l : List α) (i : ℕ) (d : α)
    (h : i < l.length) : l.reverse.getD i d = l.getD (l.length - 1 - i) d := by
  rw [List.getD_eq_getElem _ _ (by simpa using h), List.getElem_reverse,
    List.getD_eq_getElem _ _ (by omega)]

theorem replicate_getD_none (m j : ℕ) :
    (List.replicate m (none : Option State)).getD j none = none := by
  rcases lt_or_ge j m with hj | hj
  · rw [List.getD_eq_getElem _ _ (by simpa using hj)]
    simp
  · exact getD_of_le _ _ _ (by simpa using hj)

theorem descendColumn_nil (fpf : Solver) (vhk : Kwargs) (jdx : ℕ) (cvk : Kwargs)
    (old firstCol : State) (broken : Bool) :
    descendColumn fpf vhk [] jdx cvk old firstCol broken
      = ⟨[], [], cvk, old, firstCol⟩ := rfl

/-- A broken-state step: NaN cell, no solver call, reg_param still merged. -/
theorem descendColumn_cons_broken (fpf : Solver) (vhk : Kwargs) (r : ℝ)
    (rest : List ℝ) (jdx : ℕ) (cvk : Kwargs) (old firstCol : State) :
    descendColumn fpf vhk (r :: rest) jdx cvk old firstCol true
      = ⟨none :: (descendColumn fpf vhk rest (jdx + 1)
            (updateKey cvk "reg_param" r) old firstCol true).cells,
          (descendColumn fpf vhk rest (jdx + 1)
            (updateKey cvk "reg_param" r) old firstCol true).callTrace,
          (descendColumn fpf vhk rest (jdx + 1)
            (updateKey cvk "reg_param" r) old firstCol true).cvk,
          (descendColumn fpf vhk rest (jdx + 1)
            (updateKey cvk "reg_param" r) old firstCol true).lastCond,
          (descendColumn fpf vhk rest (jdx + 1)
            (updateKey cvk "reg_param" r) old firstCol true).firstCond⟩ := by
  simp only [descendColumn]
  rw [if_pos trivial]

/-- A successful step of a descend column. -/
theorem descendColumn_cons_ok (fpf : Solver) (vhk : Kwargs) (r : ℝ)
    (rest : List ℝ) (jdx : ℕ) (cvk : Kwargs) (old firstCol : State) (s : State)
    (hf : fpf old (updateKey cvk "reg_param" r) vhk = Except.ok s) :
    descendColumn fpf vhk (r :: rest) jdx cvk old firstCol false
      = ⟨some s :: (descendColumn fpf vhk rest (jdx + 1)
            (updateKey cvk "reg_param" r) s
            (if jdx = 0 then s else firstCol) false).cells,
          (r, some s) :: (descendColumn fpf vhk rest (jdx + 1)
            (updateKey cvk "reg_param" r) s
            (if jdx = 0 then s else firstCol) false).callTrace,
          (descendColumn fpf vhk rest (jdx + 1)
            (updateKey cvk "reg_param" r) s
            (if jdx = 0 then s else firstCol) false).cvk,
          (descendColumn fpf vhk rest (jdx + 1)
            (updateKey cvk "reg_param" r) s
            (if jdx = 0 then s else firstCol) false).lastCond,
          (descendColumn fpf vhk rest (jdx + 1)
            (updateKey cvk "reg_param" r) s
            (if jdx = 0 then s else firstCol) false).firstCond⟩ := by
  simp only [descendColumn]
  rw [if_neg Bool.false_ne_true, hf]

/-- A failing step of a descend column: NaN recorded, column broken. -/
theorem descendColumn_cons_error (fpf : Solver) (vhk : Kwargs) (r : ℝ)
    (rest : List ℝ) (jdx : ℕ) (cvk : Kwargs) (old firstCol : State)
    (err : PyError)
    (hf : fpf old (updateKey cvk "reg_param" r) vhk = Except.error err) :
    descendColumn fpf vhk (r :: rest) jdx cvk old firstCol false
      = ⟨none :: (descendColumn fpf vhk rest (jdx + 1)
            (updateKey cvk "reg_param" r) old firstCol true).cells,
          (r, none) :: (descendColumn fpf vhk rest (jdx + 1)
            (updateKey cvk "reg_param" r) old firstCol true).callTrace,
          (descendColumn fpf vhk rest (jdx + 1)
            (updateKey cvk "reg_param" r) old firstCol true).cvk,
          (descendColumn fpf vhk rest (jdx + 1)
            (updateKey cvk "reg_param" r) old firstCol true).lastCond,
          (descendColumn fpf vhk rest (jdx + 1)
            (updateKey cvk "reg_param" r) old firstCol true).firstCond⟩ := by
  simp only [descendColumn]
  rw [if_neg Bool.false_ne_true, hf]

/-- In the broken state a column records only NaN cells, performs no solver
call, and leaves the warm-start states untouched. -/
theorem descendColumn_broken_spec (fpf : Solver) (vhk : Kwargs) :
    ∀ (rs : List ℝ) (jdx : ℕ) (cvk : Kwargs) (old firstCol : State),
      (descendColumn fpf vhk rs jdx cvk old firstCol true).cells
          = List.replicate rs.length none
        ∧ (descendColumn fpf vhk rs jdx cvk old firstCol true).callTrace = []
        ∧ (descendColumn fpf vhk rs jdx cvk old firstCol true).lastCond = old
        ∧ (descendColumn fpf vhk rs jdx cvk old firstCol true).firstCond = firstCol := by
  intro rs
  induction rs with
  | nil => intro jdx cvk old firstCol; exact ⟨rfl, rfl, rfl, rfl⟩
  | cons r rest ih =>
    intro jdx cvk old firstCol
    rw [descendColumn_cons_broken]
    obtain ⟨hc, ht, hl, hfc⟩ := ih (jdx + 1) (updateKey cvk "reg_param" r) old firstCol
    exact ⟨by rw [hc]; rfl, ht, hl, hfc⟩

/-- Every column has one cell per grid point. -/
theorem descendColumn_cells_length (fpf : Solver) (vhk : Kwargs) :
    ∀ (rs : List ℝ) (jdx : ℕ) (cvk : Kwargs) (old firstCol : State) (broken : Bool),
      (descendColumn fpf vhk rs jdx cvk old firstCol broken).cells.length
        = rs.length := by
  intro rs
  induction rs with
  | nil => intro _ _ _ _ _; rfl
  | cons r rest ih =>
    intro jdx cvk old firstCol broken
    cases broken with
    | true =>
      rw [descendColumn_cons_broken]
      simp [ih (jdx + 1) (updateKey cvk "reg_param" r) old firstCol true]
    | false =>
      cases hf : fpf old (updateKey cvk "reg_param" r) vhk with
      | ok s =>
        rw [descendColumn_cons_ok fpf vhk r rest jdx cvk old firstCol s hf]
        simp [ih (jdx + 1) (updateKey cvk "reg_param" r) s
          (if jdx = 0 then s else firstCol) false]
      | error err =>
        rw [descendColumn_cons_error fpf vhk r rest jdx cvk old firstCol err hf]
        simp [ih (jdx + 1) (updateKey cvk "reg_param" r) old firstCol true]

/-- Once a call of a column fails, that call is the column's last, and every
cell from that scan position on is NaN. -/
theorem descendColumn_fail_spec (fpf : Solver) (vhk : Kwargs) :
    ∀ (rs : List ℝ) (jdx : ℕ) (cvk : Kwargs) (old firstCol : State) (k : ℕ) (r : ℝ),
      k < (descendColumn fpf vhk rs jdx cvk old firstCol false).callTrace.length →
      (descendColumn fpf vhk rs jdx cvk old firstCol false).callTrace.getD k
          (0, (none : Option State)) = (r, none) →
      (descendColumn fpf vhk rs jdx cvk old firstCol false).callTrace.length = k + 1
        ∧ ∀ j, k ≤ j →
          (descendColumn fpf vhk rs jdx cvk old firstCol false).cells.getD j none
            = none := by
  intro rs
  induction rs with
  | nil =>
    intro jdx cvk old firstCol k r hk _
    rw [descendColumn_nil] at hk
    simp at hk
  | cons r0 rest ih =>
    intro jdx cvk old firstCol k r hk htr
    cases hf : fpf old (updateKey cvk "reg_param" r0) vhk with
    | ok s =>
      rw [descendColumn_cons_ok fpf vhk r0 rest jdx cvk old firstCol s hf] at hk htr ⊢
      cases k with
      | zero =>
        simp at htr
      | succ k' =>
        simp only [List.getD_cons_succ] at htr
        simp only [List.length_cons] at hk
        obtain ⟨hlen, hcells⟩ := ih (jdx + 1) (updateKey cvk "reg_param" r0) s
          (if jdx = 0 then s else firstCol) k' r (by omega) htr
        constructor
        · simp [hlen]
        · intro j hj
          cases j with
          | zero => omega
          | succ j' =>
            simp only [List.getD_cons_succ]
            exact hcells j' (by omega)
    | error err =>
      rw [descendColumn_cons_error fpf vhk r0 rest jdx cvk old firstCol err hf] at hk htr ⊢
      obtain ⟨hc, ht, -, -⟩ := descendColumn_broken_spec fpf vhk rest (jdx + 1)
        (updateKey cvk "reg_param" r0) old firstCol
      rw [ht] at hk ⊢
      simp only [List.length_cons, List.length_nil] at hk
      have hk0 : k = 0 := by omega
      subst hk0
      refine ⟨rfl, ?_⟩
      intro j _
      cases j with
      | zero => rfl
      | succ j' =>
        simp only [List.getD_cons_succ]
        rw [hc]
        exact replicate_getD_none rest.length j'

/-- A column entered at a positive jdx never changes first_inital_cond_column. -/
theorem descendColumn_firstCond_stable (fpf : Solver) (vhk : Kwargs) :
    ∀ (rs : List ℝ) (jdx : ℕ) (cvk : Kwargs) (old firstCol : State) (broken : Bool),
      jdx ≠ 0 →
      (descendColumn fpf vhk rs jdx cvk old firstCol broken).firstCond = firstCol := by
  intro rs
  induction rs with
  | nil => intro _ _ _ _ _ _; rfl
  | cons r rest ih =>
    intro jdx cvk old firstCol broken hjdx
    cases broken with
    | true =>
      rw [descendColumn_cons_broken]
      exact ih (jdx + 1) (updateKey cvk "reg_param" r) old firstCol true (by omega)
    | false =>
      cases hf : fpf old (updateKey cvk "reg_param" r) vhk with
      | ok s =>
        rw [descendColumn_cons_ok fpf vhk r rest jdx cvk old firstCol s hf]
        rw [if_neg hjdx]
        exact ih (jdx + 1) (updateKey cvk "reg_param" r) s firstCol false (by omega)
      | error err =>
        rw [descendColumn_cons_error fpf vhk r rest jdx cvk old firstCol err hf]
        exact ih (jdx + 1) (updateKey cvk "reg_param" r) old firstCol true (by omega)

/-- When a column's first solver call succeeds, the recorded
first_inital_cond_column is that first solution. -/
theorem descendColumn_firstCond_of_head_ok (fpf : Solver) (vhk : Kwargs)
    (r : ℝ) (rest : List ℝ) (cvk : Kwargs) (old firstCol : State) (s : State)
    (hf : fpf old (updateKey cvk "reg_param" r) vhk = Except.ok s) :
    (descendColumn fpf vhk (r :: rest) 0 cvk old firstCol false).firstCond = s := by
  rw [descendColumn_cons_ok fpf vhk r rest 0 cvk old firstCol s hf]
  rw [if_pos rfl]
  exact descendColumn_firstCond_stable fpf vhk rest 1 (updateKey cvk "reg_param" r)
    s s false (by omega)

theorem descendLoop_nil (fpf : Solver) (rsRev : List ℝ) (cvk cvhk : Kwargs)
    (fc : State) : descendLoop fpf rsRev [] cvk cvhk fc = ([], [], []) := rfl

/-- One alpha column step of the descend loop. -/
theorem descendLoop_cons (fpf : Solver) (rsRev : List ℝ) (a : ℝ) (rest : List ℝ)
    (cvk cvhk : Kwargs) (fc : State) :
    descendLoop fpf rsRev (a :: rest) cvk cvhk fc =
      ((descendColumn fpf (updateKey cvhk "alpha" a) rsRev 0 cvk fc fc false).cells ::
          (descendLoop fpf rsRev rest
            (descendColumn fpf (updateKey cvhk "alpha" a) rsRev 0 cvk fc fc false).cvk
            (updateKey cvhk "alpha" a)
            (descendColumn fpf (updateKey cvhk "alpha" a) rsRev 0 cvk fc fc
              false).firstCond).1,
        (descendColumn fpf (updateKey cvhk "alpha" a) rsRev 0 cvk fc fc
            false).callTrace ::
          (descendLoop fpf rsRev rest
            (descendColumn fpf (updateKey cvhk "alpha" a) rsRev 0 cvk fc fc false).cvk
            (updateKey cvhk "alpha" a)
            (descendColumn fpf (updateKey cvhk "alpha" a) rsRev 0 cvk fc fc
              false).firstCond).2.1,
        fc ::
          (descendLoop fpf rsRev rest
            (descendColumn fpf (updateKey cvhk "alpha" a) rsRev 0 cvk fc fc false).cvk
            (updateKey cvhk "alpha" a)
            (descendColumn fpf (updateKey cvhk "alpha" a) rsRev 0 cvk fc fc
              false).firstCond).2.2) := by
  simp only [descendLoop]

/-- The descend loop has one column, one trace and one initial condition per
alpha. -/
theorem descendLoop_lengths (fpf : Solver) (rsRev : List ℝ) :
    ∀ (as : List ℝ) (cvk cvhk : Kwargs) (fc : State),
      (descendLoop fpf rsRev as cvk cvhk fc).1.length = as.length
        ∧ (descendLoop fpf rsRev as cvk cvhk fc).2.1.length = as.length
        ∧ (descendLoop fpf rsRev as cvk cvhk fc).2.2.length = as.length := by
  intro as
  induction as with
  | nil => intro _ _ _; exact ⟨rfl, rfl, rfl⟩
  | cons a rest ih =>
    intro cvk cvhk fc
    rw [descendLoop_cons]
    obtain ⟨h1, h2, h3⟩ := ih
      (descendColumn fpf (updateKey cvhk "alpha" a) rsRev 0 cvk fc fc false).cvk
      (updateKey cvhk "alpha" a)
      (descendColumn fpf (updateKey cvhk "alpha" a) rsRev 0 cvk fc fc false).firstCond
    exact ⟨by simp [h1], by simp [h2], by simp [h3]⟩

/-- Each column of the descend loop is one invocation of descendColumn with
jdx = 0, unbroken, and equal warm-start and first-condition arguments. -/
theorem descendLoop_parts (fpf : Solver) (rsRev : List ℝ) :
    ∀ (as : List ℝ) (i : ℕ) (cvk cvhk : Kwargs) (fc : State), i < as.length →
      ∃ vhk' cvk' fc',
        (descendLoop fpf rsRev as cvk cvhk fc).1.getD i []
            = (descendColumn fpf vhk' rsRev 0 cvk' fc' fc' false).cells
          ∧ (descendLoop fpf rsRev as cvk cvhk fc).2.1.getD i []
            = (descendColumn fpf vhk' rsRev 0 cvk' fc' fc' false).callTrace := by
  intro as
  induction as with
  | nil => intro i _ _ _ hi; simp at hi
  | cons a rest ih =>
    intro i cvk cvhk fc hi
    rw [descendLoop_cons]
    cases i with
    | zero =>
      exact ⟨updateKey cvhk "alpha" a, cvk, fc, rfl, rfl⟩
    | succ i' =>
      obtain ⟨vhk', cvk', fc', hc, ht⟩ := ih i'
        (descendColumn fpf (updateKey cvhk "alpha" a) rsRev 0 cvk fc fc false).cvk
        (updateKey cvhk "alpha" a)
        (descendColumn fpf (updateKey cvhk "alpha" a) rsRev 0 cvk fc fc false).firstCond
        (by simpa using hi)
      exact ⟨vhk', cvk', fc', by simpa using hc, by simpa using ht⟩

/-- The first column's initial condition is the one the loop was given. -/
theorem descendLoop_inits_head (fpf : Solver) (rsRev : List ℝ) (as : List ℝ)
    (cvk cvhk : Kwargs) (fc : State) (d : State) (h : as ≠ []) :
    (descendLoop fpf rsRev as cvk cvhk fc).2.2.getD 0 d = fc := by
  cases as with
  | nil => exact absurd rfl h
  | cons a rest => rw [descendLoop_cons]; rfl

/-- When column i's first solver call succeeded with state s, column i+1 is
started from s; and the first call's reg_param is the head of the reversed
(descending) grid. -/
theorem descendLoop_warmstart (fpf : Solver) (rsRev : List ℝ) :
    ∀ (as : List ℝ) (cvk cvhk : Kwargs) (fc : State) (i : ℕ) (r : ℝ) (s : State),
      ((descendLoop fpf rsRev as cvk cvhk fc).2.1.getD i []).head?
          = some (r, some s) →
      i + 1 < (descendLoop fpf rsRev as cvk cvhk fc).2.2.length →
      (descendLoop fpf rsRev as cvk cvhk fc).2.2.getD (i + 1) (0, 0, 0) = s
        ∧ rsRev.head? = some r := by
  intro as
  induction as with
  | nil =>
    intro cvk cvhk fc i r s _ hlt
    rw [descendLoop_nil] at hlt
    simp at hlt
  | cons a rest ih =>
    intro cvk cvhk fc i r s hhead hlt
    rw [descendLoop_cons] at hhead hlt ⊢
    cases i with
    | zero =>
      simp only [List.getD_cons_zero] at hhead
      simp only [List.getD_cons_succ]
      have hrest : rest ≠ [] := by
        intro hnil
        rw [hnil, descendLoop_nil] at hlt
        simp at hlt
      cases rsRev with
      | nil =>
        rw [descendColumn_nil] at hhead
        simp at hhead
      | cons r0 rrest =>
        cases hf : fpf fc (updateKey cvk "reg_param" r0)
            (updateKey cvhk "alpha" a) with
        | ok s' =>
          rw [descendColumn_cons_ok fpf (updateKey cvhk "alpha" a) r0 rrest 0 cvk
            fc fc s' hf] at hhead ⊢
          simp only [List.head?_cons, Option.some.injEq, Prod.mk.injEq] at hhead
          obtain ⟨hr, hs⟩ := hhead
          have hs' : s' = s := by
            simpa using hs
          constructor
          · rw [descendLoop_inits_head fpf (r0 :: rrest) rest _ _ _ _ hrest]
            have := descendColumn_firstCond_of_head_ok fpf
              (updateKey cvhk "alpha" a) r0 rrest cvk fc fc s' hf
            rw [descendColumn_cons_ok fpf (updateKey cvhk "alpha" a) r0 rrest 0 cvk
              fc fc s' hf] at this
            rw [this, hs']
          · rw [List.head?_cons, hr]
        | error err =>
          rw [descendColumn_cons_error fpf (updateKey cvhk "alpha" a) r0 rrest 0
            cvk fc fc err hf] at hhead
          simp at hhead
    | succ i' =>
      simp only [List.getD_cons_succ] at hhead ⊢
      simp only [List.length_cons] at hlt
      exact ih
        (descendColumn fpf (updateKey cvhk "alpha" a) rsRev 0 cvk fc fc false).cvk
        (updateKey cvhk "alpha" a)
        (descendColumn fpf (updateKey cvhk "alpha" a) rsRev 0 cvk fc fc
          false).firstCond
        i' r s hhead (by omega)

/-- A violated precondition makes sweep_alpha_descend_lambda return the
ValueError immediately, with no traces and untouched dictionaries. -/
theorem sweep_descend_reject (fpf : Solver) (amin amax : ℝ) (nA : ℕ)
    (lmin lmax : ℝ) (nL : ℕ) (vK vhK : Kwargs) (funs : List Obs)
    (fargs : List (List ℝ)) (s0 : State)
    (hv : amax < amin ∨ amin ≤ 0 ∨ lmax < lmin ∨ funs.length ≠ fargs.length) :
    sweep_alpha_descend_lambda fpf amin amax nA lmin lmax nL vK vhK funs fargs s0
      = ⟨Except.error PyError.valueError, [], [], vK, vhK⟩ := by
  unfold sweep_alpha_descend_lambda
  by_cases h1 : amin > amax
  · rw [if_pos h1]
  · rw [if_neg h1]
    by_cases h2 : amin ≤ 0
    · rw [if_pos h2]
    · rw [if_neg h2]
      by_cases h3 : lmin > lmax
      · rw [if_pos h3]
      · rw [if_neg h3]
        by_cases h4 : funs.length ≠ fargs.length
        · rw [if_pos h4]
        · rcases hv with hv | hv | hv | hv
          · exact absurd hv h1
          · exact absurd hv h2
          · exact absurd hv h3
          · exact absurd hv h4

/-- Unfolding sweep_alpha_descend_lambda when every precondition passes. -/
theorem sweep_descend_main (fpf : Solver) (amin amax : ℝ) (nA : ℕ)
    (lmin lmax : ℝ) (nL : ℕ) (vK vhK : Kwargs) (funs : List Obs)
    (fargs : List (List ℝ)) (s0 : State)
    (h1 : amin ≤ amax) (h2 : 0 < amin) (h3 : lmin ≤ lmax)
    (h4 : funs.length = fargs.length) :
    sweep_alpha_descend_lambda fpf amin amax nA lmin lmax nL vK vhK funs fargs s0
      = ⟨Except.ok ((logspace (log10 amin) (log10 amax) nA, linspace lmin lmax nL),
            (funs.zip fargs).map (fun p =>
              (descendLoop fpf (linspace lmin lmax nL).reverse
                  (logspace (log10 amin) (log10 amax) nA)
                  (copyDict vK) (copyDict vhK) s0).1.map
                (fun cells => cells.reverse.map
                  (Option.map (fun s => p.1 s.1 s.2.1 s.2.2 p.2))))),
          (descendLoop fpf (linspace lmin lmax nL).reverse
            (logspace (log10 amin) (log10 amax) nA)
            (copyDict vK) (copyDict vhK) s0).2.1,
          (descendLoop fpf (linspace lmin lmax nL).reverse
            (logspace (log10 amin) (log10 amax) nA)
            (copyDict vK) (copyDict vhK) s0).2.2,
          vK, vhK⟩ := by
  unfold sweep_alpha_descend_lambda
  rw [if_neg (by linarith), if_neg (by linarith), if_neg (by linarith),
    if_neg (by simp [h4])]

theorem linspace_single (a b : ℝ) : linspace a b 1 = [a] := by
  unfold linspace
  norm_num

/-- Claim C7: in sweep_alpha_descend_lambda, when the first (largest
reg_param) solver call of an alpha column succeeds with state s, the next
alpha column is started from s — the warm start of a new column is anchored
at the previous column's first (most-regularized) solution, not at its last
solved point; moreover that first call's reg_param is the head of the
reversed (descending) regularization grid, i.e. the largest one scanned. -/
theorem C7_first_reg_warm_start_anchor (fpf : Solver) (amin amax : ℝ) (nA : ℕ)
    (lmin lmax : ℝ) (nL : ℕ) (vK vhK : Kwargs) (funs : List Obs)
    (fargs : List (List ℝ)) (s0 : State) (i : ℕ) (r : ℝ) (s : State)
    (hhead : ((sweep_alpha_descend_lambda fpf amin amax nA lmin lmax nL vK vhK
        funs fargs s0).colTraces.getD i []).head? = some (r, some s))
    (hlt : i + 1 < (sweep_alpha_descend_lambda fpf amin amax nA lmin lmax nL vK
        vhK funs fargs s0).colInitConds.length) :
    (sweep_alpha_descend_lambda fpf amin amax nA lmin lmax nL vK vhK funs fargs
        s0).colInitConds.getD (i + 1) (0, 0, 0) = s
      ∧ ((linspace lmin lmax nL).reverse).head? = some r := by
  have h1 : amin ≤ amax := by
    by_contra hgt
    rw [sweep_descend_reject fpf amin amax nA lmin lmax nL vK vhK funs fargs s0
      (Or.inl (lt_of_not_le hgt))] at hhead
    simp at hhead
  have h2 : 0 < amin := by
    by_contra hle
    rw [sweep_descend_reject fpf amin amax nA lmin lmax nL vK vhK funs fargs s0
      (Or.inr (Or.inl (le_of_not_lt hle)))] at hhead
    simp at hhead
  have h3 : lmin ≤ lmax := by
    by_contra hgt
    rw [sweep_descend_reject fpf amin amax nA lmin lmax nL vK vhK funs fargs s0
      (Or.inr (Or.inr (Or.inl (lt_of_not_le hgt))))] at hhead
    simp at hhead
  have h4 : funs.length = fargs.length := by
    by_contra hne
    rw [sweep_descend_reject fpf amin amax nA lmin lmax nL vK vhK funs fargs s0
      (Or.inr (Or.inr (Or.inr hne)))] at hhead
    simp at hhead
  rw [sweep_descend_main fpf amin amax nA lmin lmax nL vK vhK funs fargs s0
    h1 h2 h3 h4] at hhead hlt ⊢
  exact descendLoop_warmstart fpf ((linspace lmin lmax nL).reverse)
    (logspace (log10 amin) (log10 amax) nA) (copyDict vK) (copyDict vhK) s0
    i r s hhead hlt

/-- A concrete two-column run of sweep_alpha_descend_lambda with a solver
that reads alpha back out of the var_hat kwargs. -/
theorem sweep_descend_probe_eval :
    sweep_alpha_descend_lambda
        (fun _ _ vhk => Except.ok ((getKey vhk "alpha").getD 0, 0, 0))
        1 10 2 5 5 1 [] [] [] [] (0.6, 0.01, 0.9)
      = ⟨Except.ok (([1, 10], [5]), []),
          [[(5, some ((1 : ℝ), (0 : ℝ), (0 : ℝ)))],
            [(5, some ((10 : ℝ), (0 : ℝ), (0 : ℝ)))]],
          [(0.6, 0.01, 0.9), (1, 0, 0)], [], []⟩ := by
  rw [sweep_descend_main _ 1 10 2 5 5 1 [] [] [] [] (0.6, 0.01, 0.9)
    (by norm_num) (by norm_num) (le_refl 5) rfl]
  rw [logspace_eval_up, linspace_single]
  norm_num [descendLoop, descendColumn, updateKey, getKey, copyDict, List.find?]

/-- Claim C7 (witness): the anchoring at a concrete two-alpha run. -/
theorem C7_first_reg_warm_start_witness :
    (sweep_alpha_descend_lambda
        (fun _ _ vhk => Except.ok ((getKey vhk "alpha").getD 0, 0, 0))
        1 10 2 5 5 1 [] [] [] [] (0.6, 0.01, 0.9)).colInitConds.getD (0 + 1)
        (0, 0, 0) = ((1 : ℝ), (0 : ℝ), (0 : ℝ))
      ∧ ((linspace 5 5 1).reverse).head? = some 5 :=
  C7_first_reg_warm_start_anchor
    (fun _ _ vhk => Except.ok ((getKey vhk "alpha").getD 0, 0, 0))
    1 10 2 5 5 1 [] [] [] [] (0.6, 0.01, 0.9) 0 5 (1, 0, 0)
    (by rw [sweep_descend_probe_eval]; rfl)
    (by rw [sweep_descend_probe_eval]; norm_num)

/-- Claim C3: in sweep_alpha_descend_lambda, once a solver call of a column
fails (the k-th entry of the column's call trace carries outcome none), that
call is the last of the column — no further fixed_point_finder call occurs
for the remaining (smaller) reg_params — and every cell of that column at
the failing reg_param and below (ascending index l with l + k < n_lambda_pts)
is recorded as NaN, for every observable. -/
theorem C3_broken_column_terminal (fpf : Solver) (amin amax : ℝ) (nA : ℕ)
    (lmin lmax : ℝ) (nL : ℕ) (vK vhK : Kwargs) (funs : List Obs)
    (fargs : List (List ℝ)) (s0 : State) (coords : List ℝ × List ℝ)
    (fvals : List (List (List (Option ℝ)))) (i k : ℕ) (r : ℝ)
    (hres : (sweep_alpha_descend_lambda fpf amin amax nA lmin lmax nL vK vhK
        funs fargs s0).result = Except.ok (coords, fvals))
    (hk : k < ((sweep_alpha_descend_lambda fpf amin amax nA lmin lmax nL vK vhK
        funs fargs s0).colTraces.getD i []).length)
    (htr : ((sweep_alpha_descend_lambda fpf amin amax nA lmin lmax nL vK vhK
        funs fargs s0).colTraces.getD i []).getD k (0, (none : Option State))
        = (r, none)) :
    ((sweep_alpha_descend_lambda fpf amin amax nA lmin lmax nL vK vhK funs fargs
        s0).colTraces.getD i []).length = k + 1
      ∧ ∀ o l, l + k < nL →
        ((fvals.getD o []).getD i []).getD l (none : Option ℝ) = none := by
  have h1 : amin ≤ amax := by
    by_contra hgt
    rw [sweep_descend_reject fpf amin amax nA lmin lmax nL vK vhK funs fargs s0
      (Or.inl (lt_of_not_le hgt))] at hk
    simp at hk
  have h2 : 0 < amin := by
    by_contra hle
    rw [sweep_descend_reject fpf amin amax nA lmin lmax nL vK vhK funs fargs s0
      (Or.inr (Or.inl (le_of_not_lt hle)))] at hk
    simp at hk
  have h3 : lmin ≤ lmax := by
    by_contra hgt
    rw [sweep_descend_reject fpf amin amax nA lmin lmax nL vK vhK funs fargs s0
      (Or.inr (Or.inr (Or.inl (lt_of_not_le hgt))))] at hk
    simp at hk
  have h4 : funs.length = fargs.length := by
    by_contra hne
    rw [sweep_descend_reject fpf amin amax nA lmin lmax nL vK vhK funs fargs s0
      (Or.inr (Or.inr (Or.inr hne)))] at hk
    simp at hk
  rw [sweep_descend_main fpf amin amax nA lmin lmax nL vK vhK funs fargs s0
    h1 h2 h3 h4] at hres hk htr ⊢
  have hfv : fvals = (funs.zip fargs).map (fun p =>
      (descendLoop fpf (linspace lmin lmax nL).reverse
          (logspace (log10 amin) (log10 amax) nA) (copyDict vK) (copyDict vhK)
          s0).1.map
        (fun cells => cells.reverse.map
          (Option.map (fun st => p.1 st.1 st.2.1 st.2.2 p.2)))) := by
    simp only [Except.ok.injEq, Prod.mk.injEq] at hres
    exact hres.2.symm
  have hiL : i < (logspace (log10 amin) (log10 amax) nA).length := by
    by_contra hge
    rw [getD_of_le _ i [] (by
      rw [(descendLoop_lengths fpf (linspace lmin lmax nL).reverse
        (logspace (log10 amin) (log10 amax) nA) (copyDict vK) (copyDict vhK)
        s0).2.1]
      omega)] at hk
    simp at hk
  obtain ⟨vhk', cvk', fc', hcells, htrace⟩ := descendLoop_parts fpf
    (linspace lmin lmax nL).reverse (logspace (log10 amin) (log10 amax) nA)
    i (copyDict vK) (copyDict vhK) s0 hiL
  rw [htrace] at hk htr ⊢
  obtain ⟨hlen, hnan⟩ := descendColumn_fail_spec fpf vhk'
    (linspace lmin lmax nL).reverse 0 cvk' fc' fc' k r hk htr
  refine ⟨hlen, ?_⟩
  intro o l hlk
  have hcl : (descendColumn fpf vhk' (linspace lmin lmax nL).reverse 0 cvk' fc'
      fc' false).cells.length = nL := by
    rw [descendColumn_cells_length]
    rw [List.length_reverse, linspace_length]
  rcases lt_or_ge o (funs.zip fargs).length with ho | ho
  · rw [hfv, getD_map_of_lt _ _ o [] ((fun _ _ _ _ => 0), []) ho]
    have hiL1 : i < (descendLoop fpf (linspace lmin lmax nL).reverse
        (logspace (log10 amin) (log10 amax) nA) (copyDict vK) (copyDict vhK)
        s0).1.length := by
      rw [(descendLoop_lengths fpf (linspace lmin lmax nL).reverse
        (logspace (log10 amin) (log10 amax) nA) (copyDict vK) (copyDict vhK)
        s0).1]
      exact hiL
    rw [getD_map_of_lt _ _ i [] [] hiL1, hcells]
    have hlrev : l < (descendColumn fpf vhk' (linspace lmin lmax nL).reverse 0
        cvk' fc' fc' false).cells.reverse.length := by
      rw [List.length_reverse, hcl]
      omega
    rw [getD_map_of_lt _ _ l none none hlrev]
    rw [getD_reverse_of_lt _ _ _ (by rw [hcl]; omega), hcl]
    rw [hnan (nL - 1 - l) (by omega)]
    rfl
  · rw [hfv, getD_of_le _ o [] (by rw [List.length_map]; exact ho)]
    simp [getD_of_le]

/-- A concrete one-column run of sweep_alpha_descend_lambda whose single
solver call fails. -/
theorem sweep_descend_fail_eval :
    sweep_alpha_descend_lambda
        (fun _ _ _ => Except.error PyError.convergenceError)
        1 1 1 2 2 1 [] [] [fun _ _ _ _ => 0] [[]] (0.6, 0.01, 0.9)
      = ⟨Except.ok (([1], [2]), [[[none]]]), [[(2, none)]],
          [(0.6, 0.01, 0.9)], [], []⟩ := by
  rw [sweep_descend_main _ 1 1 1 2 2 1 [] [] [fun _ _ _ _ => 0] [[]]
    (0.6, 0.01, 0.9) (le_refl 1) (by norm_num) (le_refl 2) rfl]
  rw [logspace_eval_single, linspace_single]
  norm_num [descendLoop, descendColumn, updateKey, copyDict, List.zip,
    List.zipWith]

/-- Claim C3 (witness): the broken-column property at a concrete run whose
first and only call fails. -/
theorem C3_broken_column_witness :
    ((sweep_alpha_descend_lambda
        (fun _ _ _ => Except.error PyError.convergenceError)
        1 1 1 2 2 1 [] [] [fun _ _ _ _ => 0] [[]]
        (0.6, 0.01, 0.9)).colTraces.getD 0 []).length = 0 + 1
      ∧ ∀ o l, l + 0 < 1 →
        ((([[[(none : Option ℝ)]]] : List (List (List (Option ℝ)))).getD o
          []).getD 0 []).getD l (none : Option ℝ) = none :=
  C3_broken_column_terminal
    (fun _ _ _ => Except.error PyError.convergenceError)
    1 1 1 2 2 1 [] [] [fun _ _ _ _ => 0] [[]] (0.6, 0.01, 0.9)
    ([1], [2]) [[[none]]] 0 0 2
    (by rw [sweep_descend_fail_eval])
    (by rw [sweep_descend_fail_eval]; norm_num)
    (by rw [sweep_descend_fail_eval]; rfl)

theorem minimalColumn_nil (fpf : Solver) (condF : CondFunc) (vhk : Kwargs)
    (ppr : ℕ) (jdx : ℕ) (cvk : Kwargs) (old : State) :
    minimalColumn fpf condF vhk ppr [] jdx cvk old = ⟨0, [], cvk, old⟩ := rfl

/-- A successful scan step whose condition signals instability: the scan
stops, recording the trial's ascending-grid index. -/
theorem minimalColumn_cons_stop (fpf : Solver) (condF : CondFunc) (vhk : Kwargs)
    (ppr : ℕ) (r : ℝ) (rest : List ℝ) (jdx : ℕ) (cvk : Kwargs) (old : State)
    (s : State)
    (hf : fpf old (updateKey cvk "reg_param" r) vhk = Except.ok s)
    (hc : condF s (updateKey cvk "reg_param" r) vhk ≤ 0) :
    minimalColumn fpf condF vhk ppr (r :: rest) jdx cvk old
      = ⟨ppr - 1 - jdx, [(r, some s)], updateKey cvk "reg_param" r, s⟩ := by
  simp only [minimalColumn]
  rw [hf]
  simp only [if_pos hc]

/-- A successful scan step whose condition stays positive: the scan
continues with the new warm start. -/
theorem minimalColumn_cons_go (fpf : Solver) (condF : CondFunc) (vhk : Kwargs)
    (ppr : ℕ) (r : ℝ) (rest : List ℝ) (jdx : ℕ) (cvk : Kwargs) (old : State)
    (s : State)
    (hf : fpf old (updateKey cvk "reg_param" r) vhk = Except.ok s)
    (hc : ¬ condF s (updateKey cvk "reg_param" r) vhk ≤ 0) :
    minimalColumn fpf condF vhk ppr (r :: rest) jdx cvk old
      = ⟨(minimalColumn fpf condF vhk ppr rest (jdx + 1)
            (updateKey cvk "reg_param" r) s).stopIdx,
          (r, some s) :: (minimalColumn fpf condF vhk ppr rest (jdx + 1)
            (updateKey cvk "reg_param" r) s).callTrace,
          (minimalColumn fpf condF vhk ppr rest (jdx + 1)
            (updateKey cvk "reg_param" r) s).cvk,
          (minimalColumn fpf condF vhk ppr rest (jdx + 1)
            (updateKey cvk "reg_param" r) s).lastCond⟩ := by
  simp only [minimalColumn]
  rw [hf]
  simp only [if_neg hc]

/-- A failing scan step: the scan stops, recording the trial's
ascending-grid index, without touching the warm start. -/
theorem minimalColumn_cons_error (fpf : Solver) (condF : CondFunc) (vhk : Kwargs)
    (ppr : ℕ) (r : ℝ) (rest : List ℝ) (jdx : ℕ) (cvk : Kwargs) (old : State)
    (err : PyError)
    (hf : fpf old (updateKey cvk "reg_param" r) vhk = Except.error err) :
    minimalColumn fpf condF vhk ppr (r :: rest) jdx cvk old
      = ⟨ppr - 1 - jdx, [(r, none)], updateKey cvk "reg_param" r, old⟩ := by
  simp only [minimalColumn]
  rw [hf]

/-- The scan's bookkeeping: the recorded index is points_per_run minus the
number of calls made (from the entry offset jdx), the trace is a prefix of
the scanned list, and every call before the last succeeded. -/
theorem minimalColumn_spec (fpf : Solver) (condF : CondFunc) (vhk : Kwargs)
    (ppr : ℕ) :
    ∀ (rs : List ℝ) (jdx : ℕ) (cvk : Kwargs) (old : State),
      jdx + rs.length = ppr →
      (minimalColumn fpf condF vhk ppr rs jdx cvk old).stopIdx
          = ppr - (jdx + (minimalColumn fpf condF vhk ppr rs jdx cvk old).callTrace.length)
        ∧ (minimalColumn fpf condF vhk ppr rs jdx cvk old).callTrace.map Prod.fst
          = rs.take (minimalColumn fpf condF vhk ppr rs jdx cvk old).callTrace.length
        ∧ (minimalColumn fpf condF vhk ppr rs jdx cvk old).callTrace.length ≤ rs.length
        ∧ ∀ k, k + 1 < (minimalColumn fpf condF vhk ppr rs jdx cvk old).callTrace.length →
            ((minimalColumn fpf condF vhk ppr rs jdx cvk old).callTrace.getD k
              (0, (none : Option State))).2 ≠ none := by
  intro rs
  induction rs with
  | nil =>
    intro jdx cvk old hlen
    rw [minimalColumn_nil]
    simp only [List.length_nil, Nat.add_zero] at hlen
    refine ⟨by simp; omega, rfl, le_refl _, ?_⟩
    intro k hk
    simp at hk
  | cons r rest ih =>
    intro jdx cvk old hlen
    cases hf : fpf old (updateKey cvk "reg_param" r) vhk with
    | ok s =>
      by_cases hc : condF s (updateKey cvk "reg_param" r) vhk ≤ 0
      · rw [minimalColumn_cons_stop fpf condF vhk ppr r rest jdx cvk old s hf hc]
        refine ⟨by simp; omega, by simp, by simp, ?_⟩
        intro k hk
        simp at hk
      · rw [minimalColumn_cons_go fpf condF vhk ppr r rest jdx cvk old s hf hc]
        obtain ⟨hidx, hmap, hle, hsucc⟩ := ih (jdx + 1) (updateKey cvk "reg_param" r) s
          (by simp at hlen ⊢; omega)
        refine ⟨?_, ?_, ?_, ?_⟩
        · simp only [List.length_cons]
          rw [hidx]
          omega
        · simp only [List.length_cons, List.map_cons, List.take_succ_cons, hmap]
        · simp only [List.length_cons, List.length_cons]
          simpa using hle
        · intro k hk
          cases k with
          | zero => simp
          | succ k' =>
            simp only [List.getD_cons_succ]
            exact hsucc k' (by simpa using hk)
    | error err =>
      rw [minimalColumn_cons_error fpf condF vhk ppr r rest jdx cvk old err hf]
      refine ⟨by simp; omega, by simp, by simp, ?_⟩
      intro k hk
      simp at hk

/-- A column scanned over a nonempty list makes at least one call. -/
theorem minimalColumn_trace_pos (fpf : Solver) (condF : CondFunc) (vhk : Kwargs)
    (ppr : ℕ) (r : ℝ) (rest : List ℝ) (jdx : ℕ) (cvk : Kwargs) (old : State) :
    1 ≤ (minimalColumn fpf condF vhk ppr (r :: rest) jdx cvk old).callTrace.length := by
  cases hf : fpf old (updateKey cvk "reg_param" r) vhk with
  | ok s =>
    by_cases hc : condF s (updateKey cvk "reg_param" r) vhk ≤ 0
    · rw [minimalColumn_cons_stop fpf condF vhk ppr r rest jdx cvk old s hf hc]
      simp
    · rw [minimalColumn_cons_go fpf condF vhk ppr r rest jdx cvk old s hf hc]
      simp
  | error err =>
    rw [minimalColumn_cons_error fpf condF vhk ppr r rest jdx cvk old err hf]
    simp

/-- When the solver always succeeds and the condition stays positive, the
scan completes: it visits the whole list and the recorded index stays 0. -/
theorem minimalColumn_no_trigger (fpf : Solver) (condF : CondFunc) (vhk : Kwargs)
    (ppr : ℕ) (hok : ∀ c k h, ∃ s, fpf c k h = Except.ok s)
    (hcond : ∀ s k h, 0 < condF s k h) :
    ∀ (rs : List ℝ) (jdx : ℕ) (cvk : Kwargs) (old : State),
      (minimalColumn fpf condF vhk ppr rs jdx cvk old).stopIdx = 0
        ∧ (minimalColumn fpf condF vhk ppr rs jdx cvk old).callTrace.map Prod.fst
          = rs := by
  intro rs
  induction rs with
  | nil => intro jdx cvk old; rw [minimalColumn_nil]; exact ⟨rfl, rfl⟩
  | cons r rest ih =>
    intro jdx cvk old
    obtain ⟨s, hf⟩ := hok old (updateKey cvk "reg_param" r) vhk
    have hc : ¬ condF s (updateKey cvk "reg_param" r) vhk ≤ 0 :=
      not_le.mpr (hcond s (updateKey cvk "reg_param" r) vhk)
    rw [minimalColumn_cons_go fpf condF vhk ppr r rest jdx cvk old s hf hc]
    obtain ⟨hidx, hmap⟩ := ih (jdx + 1) (updateKey cvk "reg_param" r) s
    exact ⟨hidx, by simp [hmap]⟩

theorem minimalLoop_nil (fpf : Solver) (condF : CondFunc) (b0 b1 : ℝ) (ppr : ℕ)
    (cvk cvhk : Kwargs) (old : State) :
    minimalLoop fpf condF b0 b1 ppr [] cvk cvhk old = ([], []) := rfl

/-- One alpha step of the stability-boundary loop. -/
theorem minimalLoop_cons (fpf : Solver) (condF : CondFunc) (b0 b1 : ℝ) (ppr : ℕ)
    (a : ℝ) (rest : List ℝ) (cvk cvhk : Kwargs) (old : State) :
    minimalLoop fpf condF b0 b1 ppr (a :: rest) cvk cvhk old =
      ((linspace b0 b1 ppr).getD
          (minimalColumn fpf condF (updateKey cvhk "alpha" a) ppr
            (linspace b0 b1 ppr).reverse 0 cvk old).stopIdx 0 ::
          (minimalLoop fpf condF b0 b1 ppr rest
            (minimalColumn fpf condF (updateKey cvhk "alpha" a) ppr
              (linspace b0 b1 ppr).reverse 0 cvk old).cvk
            (updateKey cvhk "alpha" a)
            (minimalColumn fpf condF (updateKey cvhk "alpha" a) ppr
              (linspace b0 b1 ppr).reverse 0 cvk old).lastCond).1,
        (minimalColumn fpf condF (updateKey cvhk "alpha" a) ppr
            (linspace b0 b1 ppr).reverse 0 cvk old).callTrace ::
          (minimalLoop fpf condF b0 b1 ppr rest
            (minimalColumn fpf condF (updateKey cvhk "alpha" a) ppr
              (linspace b0 b1 ppr).reverse 0 cvk old).cvk
            (updateKey cvhk "alpha" a)
            (minimalColumn fpf condF (updateKey cvhk "alpha" a) ppr
              (linspace b0 b1 ppr).reverse 0 cvk old).lastCond).2) := by
  simp only [minimalLoop]

/-- The stability-boundary loop records one boundary and one trace per
alpha. -/
theorem minimalLoop_lengths (fpf : Solver) (condF : CondFunc) (b0 b1 : ℝ)
    (ppr : ℕ) :
    ∀ (as : List ℝ) (cvk cvhk : Kwargs) (old : State),
      (minimalLoop fpf condF b0 b1 ppr as cvk cvhk old).1.length = as.length
        ∧ (minimalLoop fpf condF b0 b1 ppr as cvk cvhk old).2.length = as.length := by
  intro as
  induction as with
  | nil => intro _ _ _; exact ⟨rfl, rfl⟩
  | cons a rest ih =>
    intro cvk cvhk old
    rw [minimalLoop_cons]
    obtain ⟨h1, h2⟩ := ih
      (minimalColumn fpf condF (updateKey cvhk "alpha" a) ppr
        (linspace b0 b1 ppr).reverse 0 cvk old).cvk
      (updateKey cvhk "alpha" a)
      (minimalColumn fpf condF (updateKey cvhk "alpha" a) ppr
        (linspace b0 b1 ppr).reverse 0 cvk old).lastCond
    exact ⟨by simp [h1], by simp [h2]⟩

/-- Each alpha of the stability-boundary loop is one invocation of
minimalColumn with jdx = 0 over the reversed fresh grid, and the recorded
boundary is reg_params_test[not_converged_idx] for that invocation. -/
theorem minimalLoop_parts (fpf : Solver) (condF : CondFunc) (b0 b1 : ℝ)
    (ppr : ℕ) :
    ∀ (as : List ℝ) (i : ℕ) (cvk cvhk : Kwargs) (old : State), i < as.length →
      ∃ vhk' cvk' old',
        (minimalLoop fpf condF b0 b1 ppr as cvk cvhk old).1.getD i 0
            = (linspace b0 b1 ppr).getD
                (minimalColumn fpf condF vhk' ppr (linspace b0 b1 ppr).reverse 0
                  cvk' old').stopIdx 0
          ∧ (minimalLoop fpf condF b0 b1 ppr as cvk cvhk old).2.getD i []
            = (minimalColumn fpf condF vhk' ppr (linspace b0 b1 ppr).reverse 0
                cvk' old').callTrace := by
  intro as
  induction as with
  | nil => intro i _ _ _ hi; simp at hi
  | cons a rest ih =>
    intro i cvk cvhk old hi
    rw [minimalLoop_cons]
    cases i with
    | zero =>
      exact ⟨updateKey cvhk "alpha" a, cvk, old, rfl, rfl⟩
    | succ i' =>
      obtain ⟨vhk', cvk', old', hb, ht⟩ := ih i'
        (minimalColumn fpf condF (updateKey cvhk "alpha" a) ppr
          (linspace b0 b1 ppr).reverse 0 cvk old).cvk
        (updateKey cvhk "alpha" a)
        (minimalColumn fpf condF (updateKey cvhk "alpha" a) ppr
          (linspace b0 b1 ppr).reverse 0 cvk old).lastCond
        (by simpa using hi)
      exact ⟨vhk', cvk', old', by simpa using hb, by simpa using ht⟩

/-- A violated precondition makes sweep_alpha_minimal_stable_reg_param
return the ValueError immediately, with no traces and untouched
dictionaries. -/
theorem sweep_minimal_reject (fpf : Solver) (amin amax : ℝ) (n : ℕ)
    (condF : CondFunc) (vK vhK : Kwargs) (s0 : State) (dec : Bool)
    (b0 b1 : ℝ) (ppr : ℕ)
    (hv : amax < amin ∨ amin ≤ 0 ∨ b1 < b0 ∨ b1 ≤ 0) :
    sweep_alpha_minimal_stable_reg_param fpf amin amax n condF vK vhK s0 dec
        b0 b1 ppr
      = ⟨Except.error PyError.valueError, [], vK, vhK⟩ := by
  unfold sweep_alpha_minimal_stable_reg_param
  by_cases h1 : amin > amax
  · rw [if_pos h1]
  · rw [if_neg h1]
    by_cases h2 : amin ≤ 0
    · rw [if_pos h2]
    · rw [if_neg h2]
      by_cases h3 : b0 > b1
      · rw [if_pos h3]
      · rw [if_neg h3]
        by_cases h4 : b1 ≤ 0
        · rw [if_pos h4]
        · rcases hv with hv | hv | hv | hv
          · exact absurd hv h1
          · exact absurd hv h2
          · exact absurd hv h3
          · exact absurd hv h4

/-- Unfolding sweep_alpha_minimal_stable_reg_param when every precondition
passes. -/
theorem sweep_minimal_main (fpf : Solver) (amin amax : ℝ) (n : ℕ)
    (condF : CondFunc) (vK vhK : Kwargs) (s0 : State) (dec : Bool)
    (b0 b1 : ℝ) (ppr : ℕ)
    (h1 : amin ≤ amax) (h2 : 0 < amin) (h3 : b0 ≤ b1) (h4 : 0 < b1) :
    sweep_alpha_minimal_stable_reg_param fpf amin amax n condF vK vhK s0 dec
        b0 b1 ppr =
      (if dec then
        ⟨Except.ok ((gridAlphas amin amax n dec).reverse,
            (minimalLoop fpf condF b0 b1 ppr (gridAlphas amin amax n dec)
              (copyDict vK) (copyDict vhK) s0).1.reverse),
          (minimalLoop fpf condF b0 b1 ppr (gridAlphas amin amax n dec)
            (copyDict vK) (copyDict vhK) s0).2, vK, vhK⟩
      else
        ⟨Except.ok (gridAlphas amin amax n dec,
            (minimalLoop fpf condF b0 b1 ppr (gridAlphas amin amax n dec)
              (copyDict vK) (copyDict vhK) s0).1),
          (minimalLoop fpf condF b0 b1 ppr (gridAlphas amin amax n dec)
            (copyDict vK) (copyDict vhK) s0).2, vK, vhK⟩) := by
  unfold sweep_alpha_minimal_stable_reg_param
  rw [if_neg (by linarith), if_neg (by linarith), if_neg (by linarith),
    if_neg (by linarith)]

theorem linspace_two_pts : linspace 1 2 2 = [1, 2] := by
  unfold linspace
  norm_num [List.range_succ]

theorem linspace_head (a b : ℝ) (n : ℕ) (h : 1 ≤ n) :
    (linspace a b n).getD 0 0 = a := by
  by_cases h1 : n = 1
  · subst h1
    rw [linspace_single]
    rfl
  · rw [linspace_getD a b n 0 (by omega) (by omega)]
    simp

theorem getD_mem_of_lt {α : Type} (l : List α) (i : ℕ) (d : α)
    (h : i < l.length) : l.getD i d ∈ l := by
  rw [List.getD_eq_getElem _ _ h]
  exact List.getElem_mem _

/-- The recorded not_converged_idx is always a valid index of the search
grid. -/
theorem minimalColumn_stopIdx_lt (fpf : Solver) (condF : CondFunc)
    (vhk' : Kwargs) (b0 b1 : ℝ) (ppr : ℕ) (cvk : Kwargs) (old : State)
    (hppr : 1 ≤ ppr) :
    (minimalColumn fpf condF vhk' ppr (linspace b0 b1 ppr).reverse 0 cvk
      old).stopIdx < ppr := by
  have hlen : (0 : ℕ) + ((linspace b0 b1 ppr).reverse).length = ppr := by
    rw [List.length_reverse, linspace_length]
    omega
  obtain ⟨hidx, -, -, -⟩ := minimalColumn_spec fpf condF vhk' ppr
    ((linspace b0 b1 ppr).reverse) 0 cvk old hlen
  have hne : (linspace b0 b1 ppr).reverse ≠ [] := by
    intro hnil
    have := congrArg List.length hnil
    rw [List.length_reverse, linspace_length] at this
    simp at this
    omega
  obtain ⟨r, rest, hcons⟩ := List.exists_cons_of_ne_nil hne
  have hpos : 1 ≤ (minimalColumn fpf condF vhk' ppr
      ((linspace b0 b1 ppr).reverse) 0 cvk old).callTrace.length := by
    rw [hcons]
    exact minimalColumn_trace_pos fpf condF vhk' ppr r rest 0 cvk old
  rw [hidx]
  omega

/-- Every boundary the stability-boundary loop records is a member of the
fresh linear search grid. -/
theorem minimalLoop_boundary_mem (fpf : Solver) (condF : CondFunc) (b0 b1 : ℝ)
    (ppr : ℕ) (hppr : 1 ≤ ppr) :
    ∀ (as : List ℝ) (cvk cvhk : Kwargs) (old : State) (x : ℝ),
      x ∈ (minimalLoop fpf condF b0 b1 ppr as cvk cvhk old).1 →
      x ∈ linspace b0 b1 ppr := by
  intro as
  induction as with
  | nil =>
    intro cvk cvhk old x hx
    rw [minimalLoop_nil] at hx
    simp at hx
  | cons a rest ih =>
    intro cvk cvhk old x hx
    rw [minimalLoop_cons] at hx
    rcases List.mem_cons.mp hx with hx | hx
    · rw [hx]
      apply getD_mem_of_lt
      rw [linspace_length]
      exact minimalColumn_stopIdx_lt fpf condF (updateKey cvhk "alpha" a) b0 b1
        ppr cvk old hppr
    · exact ih _ _ _ x hx

/-- The per-alpha scan bookkeeping, at the loop level: the i-th column's
trace is a prefix of the descending grid, all its calls but the last
succeeded, and the i-th recorded boundary is the ascending-grid value at
index points_per_run minus the number of calls made. -/
theorem minimalLoop_column_props (fpf : Solver) (condF : CondFunc) (b0 b1 : ℝ)
    (ppr : ℕ) :
    ∀ (as : List ℝ) (i : ℕ) (cvk cvhk : Kwargs) (old : State), i < as.length →
      ((minimalLoop fpf condF b0 b1 ppr as cvk cvhk old).2.getD i []).map Prod.fst
          = ((linspace b0 b1 ppr).reverse).take
              ((minimalLoop fpf condF b0 b1 ppr as cvk cvhk old).2.getD i []).length
        ∧ (∀ k, k + 1 < ((minimalLoop fpf condF b0 b1 ppr as cvk cvhk
              old).2.getD i []).length →
            (((minimalLoop fpf condF b0 b1 ppr as cvk cvhk old).2.getD i []).getD k
              (0, (none : Option State))).2 ≠ none)
        ∧ (minimalLoop fpf condF b0 b1 ppr as cvk cvhk old).1.getD i 0
          = (linspace b0 b1 ppr).getD
              (ppr - ((minimalLoop fpf condF b0 b1 ppr as cvk cvhk
                old).2.getD i []).length) 0 := by
  intro as i cvk cvhk old hi
  obtain ⟨vhk', cvk', old', hb, ht⟩ := minimalLoop_parts fpf condF b0 b1 ppr as
    i cvk cvhk old hi
  have hlen : (0 : ℕ) + ((linspace b0 b1 ppr).reverse).length = ppr := by
    rw [List.length_reverse, linspace_length]
    omega
  obtain ⟨hidx, hmap, -, hsucc⟩ := minimalColumn_spec fpf condF vhk' ppr
    ((linspace b0 b1 ppr).reverse) 0 cvk' old' hlen
  refine ⟨?_, ?_, ?_⟩
  · rw [ht]
    exact hmap
  · intro k hk
    rw [ht] at hk ⊢
    exact hsucc k hk
  · rw [hb, ht, hidx]
    simp

/-- When the solver always succeeds and the condition stays positive, every
recorded boundary is the ascending grid's first entry and every column scans
the whole descending grid. -/
theorem minimalLoop_no_trigger (fpf : Solver) (condF : CondFunc) (b0 b1 : ℝ)
    (ppr : ℕ) (hok : ∀ c k h, ∃ s, fpf c k h = Except.ok s)
    (hcond : ∀ s k h, 0 < condF s k h) :
    ∀ (as : List ℝ) (cvk cvhk : Kwargs) (old : State),
      (∀ x ∈ (minimalLoop fpf condF b0 b1 ppr as cvk cvhk old).1,
          x = (linspace b0 b1 ppr).getD 0 0)
        ∧ ∀ tr ∈ (minimalLoop fpf condF b0 b1 ppr as cvk cvhk old).2,
            tr.map Prod.fst = (linspace b0 b1 ppr).reverse := by
  intro as
  induction as with
  | nil =>
    intro cvk cvhk old
    rw [minimalLoop_nil]
    exact ⟨by simp, by simp⟩
  | cons a rest ih =>
    intro cvk cvhk old
    rw [minimalLoop_cons]
    obtain ⟨hidx, hmap⟩ := minimalColumn_no_trigger fpf condF
      (updateKey cvhk "alpha" a) ppr hok hcond ((linspace b0 b1 ppr).reverse) 0
      cvk old
    obtain ⟨ih1, ih2⟩ := ih
      (minimalColumn fpf condF (updateKey cvhk "alpha" a) ppr
        (linspace b0 b1 ppr).reverse 0 cvk old).cvk
      (updateKey cvhk "alpha" a)
      (minimalColumn fpf condF (updateKey cvhk "alpha" a) ppr
        (linspace b0 b1 ppr).reverse 0 cvk old).lastCond
    constructor
    · intro x hx
      rcases List.mem_cons.mp hx with hx | hx
      · rw [hx, hidx]
      · exact ih1 x hx
    · intro tr htr
      rcases List.mem_cons.mp htr with htr | htr
      · rw [htr]
        exact hmap
      · exact ih2 tr htr

/-- A concrete run of sweep_alpha_minimal_stable_reg_param in which the scan
never triggers: the solver always succeeds and the condition stays positive,
so the recorded boundary defaults to reg_params_test[0] = 1, the
least-regularized point, while the scan visited 2 first. -/
theorem sweep_minimal_nostop_eval :
    sweep_alpha_minimal_stable_reg_param
        (fun _ _ _ => Except.ok ((1 : ℝ), (1 : ℝ), (1 : ℝ)))
        1 1 1 (fun _ _ _ => 1) [] [] (0.6, 0.01, 0.9) false 1 2 2
      = ⟨Except.ok ([1], [1]),
          [[(2, some ((1 : ℝ), (1 : ℝ), (1 : ℝ))),
            (1, some ((1 : ℝ), (1 : ℝ), (1 : ℝ)))]], [], []⟩ := by
  have hcol : minimalColumn (fun _ _ _ => Except.ok ((1 : ℝ), (1 : ℝ), (1 : ℝ)))
      (fun _ _ _ => 1) (updateKey [] "alpha" 1) 2 [2, 1] 0 [] (0.6, 0.01, 0.9)
      = ⟨0, [(2, some ((1 : ℝ), (1 : ℝ), (1 : ℝ))),
            (1, some ((1 : ℝ), (1 : ℝ), (1 : ℝ)))],
          updateKey (updateKey [] "reg_param" 2) "reg_param" 1, (1, 1, 1)⟩ := by
    rw [minimalColumn_cons_go _ _ _ 2 2 [1] 0 [] (0.6, 0.01, 0.9) (1, 1, 1) rfl
      (by norm_num)]
    rw [minimalColumn_cons_go _ _ _ 2 1 [] 1 (updateKey [] "reg_param" 2)
      (1, 1, 1) (1, 1, 1) rfl (by norm_num)]
    rw [minimalColumn_nil]
  rw [sweep_minimal_main _ 1 1 1 _ [] [] (0.6, 0.01, 0.9) false 1 2 2
    (le_refl 1) (by norm_num) (by norm_num) (by norm_num)]
  rw [if_neg (by decide)]
  rw [gridAlphas_single_eval]
  rw [minimalLoop_cons, minimalLoop_nil]
  simp only [copyDict, linspace_two_pts]
  rw [show ([(1 : ℝ), 2]).reverse = [2, 1] from rfl]
  rw [hcol]
  rfl

/-- Claim C4 (counterexample): the claim says an untriggered scan records
the grid value at index 0 as "the first/most-regularized grid point
scanned"; in a concrete untriggered run with search grid [1, 2], the column
scanned 2 (the most-regularized point) first, yet the recorded boundary is
the index-0 value 1 — the least-regularized point, which is scanned last,
and 1 ≠ 2. -/
theorem C4_counterexample_boundary_least_regularized :
    (sweep_alpha_minimal_stable_reg_param
        (fun _ _ _ => Except.ok ((1 : ℝ), (1 : ℝ), (1 : ℝ)))
        1 1 1 (fun _ _ _ => 1) [] [] (0.6, 0.01, 0.9) false 1 2 2).result
        = Except.ok ([1], [1])
      ∧ ((sweep_alpha_minimal_stable_reg_param
          (fun _ _ _ => Except.ok ((1 : ℝ), (1 : ℝ), (1 : ℝ)))
          1 1 1 (fun _ _ _ => 1) [] [] (0.6, 0.01, 0.9) false 1 2
          2).colTraces.getD 0 []).map Prod.fst = [2, 1]
      ∧ (1 : ℝ) ≠ 2 := by
  refine ⟨?_, ?_, by norm_num⟩
  · rw [sweep_minimal_nostop_eval]
  · rw [sweep_minimal_nostop_eval]
    rfl

/-- Claim C4 (amended): in sweep_alpha_minimal_stable_reg_param, for every
alpha whose descending scan completes without a solver failure and without
the condition ever dropping to ≤ 0, the recorded boundary is the grid value
at index 0 — which is bounds_reg_param_search[0], the smallest and
least-regularized point of the search grid, the LAST grid point scanned (the
scan starts from the most-regularized end and visits the whole grid). -/
theorem C4_default_boundary_least_regularized (fpf : Solver) (condF : CondFunc)
    (amin amax : ℝ) (n : ℕ) (vK vhK : Kwargs) (s0 : State) (dec : Bool)
    (b0 b1 : ℝ) (ppr : ℕ)
    (hok : ∀ c k h, ∃ s, fpf c k h = Except.ok s)
    (hcond : ∀ s k h, 0 < condF s k h)
    (h0 : 0 < amin) (h1 : amin ≤ amax) (hb : b0 ≤ b1) (hb1 : 0 < b1)
    (hppr : 1 ≤ ppr) :
    ∀ as bs,
      (sweep_alpha_minimal_stable_reg_param fpf amin amax n condF vK vhK s0 dec
        b0 b1 ppr).result = Except.ok (as, bs) →
      (∀ b', b' ∈ bs → b' = b0)
        ∧ (linspace b0 b1 ppr).getD 0 0 = b0
        ∧ ∀ i, i < n →
            ((sweep_alpha_minimal_stable_reg_param fpf amin amax n condF vK vhK
              s0 dec b0 b1 ppr).colTraces.getD i []).map Prod.fst
              = (linspace b0 b1 ppr).reverse := by
  intro as bs hres
  have hhead := linspace_head b0 b1 ppr hppr
  have hloop := minimalLoop_no_trigger fpf condF b0 b1 ppr hok hcond
    (gridAlphas amin amax n dec) (copyDict vK) (copyDict vhK) s0
  have hlens := minimalLoop_lengths fpf condF b0 b1 ppr
    (gridAlphas amin amax n dec) (copyDict vK) (copyDict vhK) s0
  rw [sweep_minimal_main fpf amin amax n condF vK vhK s0 dec b0 b1 ppr
    h1 h0 hb hb1] at hres ⊢
  cases dec with
  | false =>
    rw [if_neg Bool.false_ne_true] at hres ⊢
    simp only [Except.ok.injEq, Prod.mk.injEq] at hres
    have hbs : bs = (minimalLoop fpf condF b0 b1 ppr
        (gridAlphas amin amax n false) (copyDict vK) (copyDict vhK) s0).1 :=
      hres.2.symm
    refine ⟨?_, hhead, ?_⟩
    · intro b' hb'
      rw [hbs] at hb'
      rw [hloop.1 b' hb', hhead]
    · intro i hi
      apply hloop.2
      apply getD_mem_of_lt
      rw [hlens.2, gridAlphas_length]
      exact hi
  | true =>
    rw [if_pos rfl] at hres ⊢
    simp only [Except.ok.injEq, Prod.mk.injEq] at hres
    have hbs : bs = (minimalLoop fpf condF b0 b1 ppr
        (gridAlphas amin amax n true) (copyDict vK) (copyDict vhK) s0).1.reverse :=
      hres.2.symm
    refine ⟨?_, hhead, ?_⟩
    · intro b' hb'
      rw [hbs, List.mem_reverse] at hb'
      rw [hloop.1 b' hb', hhead]
    · intro i hi
      apply hloop.2
      apply getD_mem_of_lt
      rw [hlens.2, gridAlphas_length]
      exact hi

/-- Claim C4 (witness): the amended statement at the concrete untriggered
run with search grid [1, 2]. -/
theorem C4_default_boundary_witness :
    (∀ b', b' ∈ ([1] : List ℝ) → b' = 1)
      ∧ (linspace 1 2 2).getD 0 0 = 1
      ∧ ∀ i, i < 1 →
          ((sweep_alpha_minimal_stable_reg_param
            (fun _ _ _ => Except.ok ((1 : ℝ), (1 : ℝ), (1 : ℝ)))
            1 1 1 (fun _ _ _ => 1) [] [] (0.6, 0.01, 0.9) false 1 2
            2).colTraces.getD i []).map Prod.fst
            = (linspace 1 2 2).reverse :=
  C4_default_boundary_least_regularized
    (fun _ _ _ => Except.ok ((1 : ℝ), (1 : ℝ), (1 : ℝ)))
    (fun _ _ _ => 1) 1 1 1 [] [] (0.6, 0.01, 0.9) false 1 2 2
    (fun _ _ _ => ⟨(1, 1, 1), rfl⟩) (fun _ _ _ => by norm_num)
    (by norm_num) (le_refl 1) (by norm_num) (by norm_num) (by norm_num)
    [1] [1] (by rw [sweep_minimal_nostop_eval])

/-- Claim C8: in sweep_alpha_minimal_stable_reg_param, each alpha's
descending scan stops at the first trial that triggers (a successful solve
with condition ≤ 0, or a solver exception): the column's call trace is a
prefix of the descending grid whose entries all succeeded except possibly
the last, the recorded boundary is the ascending-grid value at index
points_per_run minus the number of calls made (that stopping trial's index,
or index 0 when the scan never triggered), and every recorded boundary is a
member of the alpha's linear search grid. -/
theorem C8_boundary_member_and_first_stop (fpf : Solver) (condF : CondFunc)
    (amin amax : ℝ) (n : ℕ) (vK vhK : Kwargs) (s0 : State) (dec : Bool)
    (b0 b1 : ℝ) (ppr : ℕ)
    (h0 : 0 < amin) (h1 : amin ≤ amax) (hb : b0 ≤ b1) (hb1 : 0 < b1)
    (hppr : 1 ≤ ppr) :
    ∀ as bs,
      (sweep_alpha_minimal_stable_reg_param fpf amin amax n condF vK vhK s0 dec
        b0 b1 ppr).result = Except.ok (as, bs) →
      (∀ b', b' ∈ bs → b' ∈ linspace b0 b1 ppr)
        ∧ ∀ i, i < n →
            ((sweep_alpha_minimal_stable_reg_param fpf amin amax n condF vK vhK
                s0 dec b0 b1 ppr).colTraces.getD i []).map Prod.fst
                = ((linspace b0 b1 ppr).reverse).take
                    ((sweep_alpha_minimal_stable_reg_param fpf amin amax n condF
                      vK vhK s0 dec b0 b1 ppr).colTraces.getD i []).length
              ∧ (∀ k, k + 1 < ((sweep_alpha_minimal_stable_reg_param fpf amin
                    amax n condF vK vhK s0 dec b0 b1 ppr).colTraces.getD
                    i []).length →
                  (((sweep_alpha_minimal_stable_reg_param fpf amin amax n condF
                    vK vhK s0 dec b0 b1 ppr).colTraces.getD i []).getD k
                    (0, (none : Option State))).2 ≠ none)
              ∧ (if dec then bs.reverse else bs).getD i 0
                = (linspace b0 b1 ppr).getD
                    (ppr - ((sweep_alpha_minimal_stable_reg_param fpf amin amax
                      n condF vK vhK s0 dec b0 b1 ppr).colTraces.getD
                      i []).length) 0 := by
  intro as bs hres
  have hlens := minimalLoop_lengths fpf condF b0 b1 ppr
    (gridAlphas amin amax n dec) (copyDict vK) (copyDict vhK) s0
  rw [sweep_minimal_main fpf amin amax n condF vK vhK s0 dec b0 b1 ppr
    h1 h0 hb hb1] at hres ⊢
  cases dec with
  | false =>
    rw [if_neg Bool.false_ne_true] at hres ⊢
    simp only [Except.ok.injEq, Prod.mk.injEq] at hres
    have hbs : bs = (minimalLoop fpf condF b0 b1 ppr
        (gridAlphas amin amax n false) (copyDict vK) (copyDict vhK) s0).1 :=
      hres.2.symm
    constructor
    · intro b' hb'
      rw [hbs] at hb'
      exact minimalLoop_boundary_mem fpf condF b0 b1 ppr hppr _ _ _ _ b' hb'
    · intro i hi
      have hi' : i < (gridAlphas amin amax n false).length := by
        rw [gridAlphas_length]
        exact hi
      obtain ⟨hmap, hsucc, hbnd⟩ := minimalLoop_column_props fpf condF b0 b1 ppr
        (gridAlphas amin amax n false) i (copyDict vK) (copyDict vhK) s0 hi'
      refine ⟨hmap, hsucc, ?_⟩
      rw [if_neg Bool.false_ne_true, hbs]
      exact hbnd
  | true =>
    rw [if_pos rfl] at hres ⊢
    simp only [Except.ok.injEq, Prod.mk.injEq] at hres
    have hbs : bs = (minimalLoop fpf condF b0 b1 ppr
        (gridAlphas amin amax n true) (copyDict vK) (copyDict vhK) s0).1.reverse :=
      hres.2.symm
    constructor
    · intro b' hb'
      rw [hbs, List.mem_reverse] at hb'
      exact minimalLoop_boundary_mem fpf condF b0 b1 ppr hppr _ _ _ _ b' hb'
    · intro i hi
      have hi' : i < (gridAlphas amin amax n true).length := by
        rw [gridAlphas_length]
        exact hi
      obtain ⟨hmap, hsucc, hbnd⟩ := minimalLoop_column_props fpf condF b0 b1 ppr
        (gridAlphas amin amax n true) i (copyDict vK) (copyDict vhK) s0 hi'
      refine ⟨hmap, hsucc, ?_⟩
      rw [if_pos rfl, hbs, List.reverse_reverse]
      exact hbnd

/-- Claim C8 (witness): the stop/membership properties at the concrete
untriggered run with search grid [1, 2]. -/
theorem C8_boundary_member_witness :
    (∀ b', b' ∈ ([1] : List ℝ) → b' ∈ linspace 1 2 2)
      ∧ ∀ i, i < 1 →
          ((sweep_alpha_minimal_stable_reg_param
              (fun _ _ _ => Except.ok ((1 : ℝ), (1 : ℝ), (1 : ℝ)))
              1 1 1 (fun _ _ _ => 1) [] [] (0.6, 0.01, 0.9) false 1 2
              2).colTraces.getD i []).map Prod.fst
              = ((linspace 1 2 2).reverse).take
                  ((sweep_alpha_minimal_stable_reg_param
                    (fun _ _ _ => Except.ok ((1 : ℝ), (1 : ℝ), (1 : ℝ)))
                    1 1 1 (fun _ _ _ => 1) [] [] (0.6, 0.01, 0.9) false 1 2
                    2).colTraces.getD i []).length
            ∧ (∀ k, k + 1 < ((sweep_alpha_minimal_stable_reg_param
                  (fun _ _ _ => Except.ok ((1 : ℝ), (1 : ℝ), (1 : ℝ)))
                  1 1 1 (fun _ _ _ => 1) [] [] (0.6, 0.01, 0.9) false 1 2
                  2).colTraces.getD i []).length →
                (((sweep_alpha_minimal_stable_reg_param
                  (fun _ _ _ => Except.ok ((1 : ℝ), (1 : ℝ), (1 : ℝ)))
                  1 1 1 (fun _ _ _ => 1) [] [] (0.6, 0.01, 0.9) false 1 2
                  2).colTraces.getD i []).getD k
                  (0, (none : Option State))).2 ≠ none)
            ∧ (if false then ([(1 : ℝ)]).reverse else [(1 : ℝ)]).getD i 0
              = (linspace 1 2 2).getD
                  (2 - ((sweep_alpha_minimal_stable_reg_param
                    (fun _ _ _ => Except.ok ((1 : ℝ), (1 : ℝ), (1 : ℝ)))
                    1 1 1 (fun _ _ _ => 1) [] [] (0.6, 0.01, 0.9) false 1 2
                    2).colTraces.getD i []).length) 0 :=
  C8_boundary_member_and_first_stop
    (fun _ _ _ => Except.ok ((1 : ℝ), (1 : ℝ), (1 : ℝ)))
    (fun _ _ _ => 1) 1 1 1 [] [] (0.6, 0.01, 0.9) false 1 2 2
    (by norm_num) (le_refl 1) (by norm_num) (by norm_num) (by norm_num)
    [1] [1] (by rw [sweep_minimal_nostop_eval])

/-- sweep_alpha_descend_lambda returns both caller dictionaries' contents
unchanged (copies are taken at entry). -/
theorem sweep_descend_dicts (fpf : Solver) (amin amax : ℝ) (nA : ℕ)
    (lmin lmax : ℝ) (nL : ℕ) (vK vhK : Kwargs) (funs : List Obs)
    (fargs : List (List ℝ)) (s0 : State) :
    (sweep_alpha_descend_lambda fpf amin amax nA lmin lmax nL vK vhK funs fargs
        s0).varKFinal = vK
      ∧ (sweep_alpha_descend_lambda fpf amin amax nA lmin lmax nL vK vhK funs
        fargs s0).varHatKFinal = vhK := by
  simp only [sweep_alpha_descend_lambda]
  split
  · exact ⟨rfl, rfl⟩
  · split
    · exact ⟨rfl, rfl⟩
    · split
      · exact ⟨rfl, rfl⟩
      · split
        · exact ⟨rfl, rfl⟩
        · exact ⟨rfl, rfl⟩

/-- sweep_alpha_minimal_stable_reg_param returns both caller dictionaries'
contents unchanged (copies are taken at entry). -/
theorem sweep_minimal_dicts (fpf : Solver) (amin amax : ℝ) (n : ℕ)
    (condF : CondFunc) (vK vhK : Kwargs) (s0 : State) (dec : Bool)
    (b0 b1 : ℝ) (ppr : ℕ) :
    (sweep_alpha_minimal_stable_reg_param fpf amin amax n condF vK vhK s0 dec
        b0 b1 ppr).varKFinal = vK
      ∧ (sweep_alpha_minimal_stable_reg_param fpf amin amax n condF vK vhK s0
        dec b0 b1 ppr).varHatKFinal = vhK := by
  simp only [sweep_alpha_minimal_stable_reg_param]
  split
  · exact ⟨rfl, rfl⟩
  · split
    · exact ⟨rfl, rfl⟩
    · split
      · exact ⟨rfl, rfl⟩
      · split
        · exact ⟨rfl, rfl⟩
        · split
          · exact ⟨rfl, rfl⟩
          · exact ⟨rfl, rfl⟩

/-- Claim C5: ConvergenceError and ValueError from the solver are handled
asymmetrically by sweep type. sweep_alpha_fixed_point and the two
optimal-lambda sweeps let a solver/optimiser exception propagate and abort
the whole call (the result is that very error, and the result type carries
no partial output); sweep_alpha_descend_lambda and
sweep_alpha_minimal_stable_reg_param catch both exception kinds locally and
always return a successful result once the preconditions pass, converting
failures to NaN cells or boundary recordings. -/
theorem C5_error_propagation_asymmetry :
    (∀ (e : PyError) (fpf : Solver) (amin amax : ℝ) (n : ℕ) (vK vhK : Kwargs)
        (s0 : State) (funs : List Obs) (fargs : List (List ℝ)) (dec : Bool),
      (∀ c k h, fpf c k h = Except.error e) →
      funs.length = fargs.length → amin ≤ amax → 0 < amin → 1 ≤ n →
      (sweep_alpha_fixed_point fpf amin amax n vK vhK s0 funs fargs dec).result
        = Except.error e)
    ∧ (∀ (e : PyError) (fopt : OptFinder) (amin amax : ℝ) (n : ℕ) (lg : ℝ)
        (vK vhK : Kwargs) (s0 : State) (funs : List Obs)
        (fargs : List (List ℝ)) (dec : Bool),
      (∀ fs fas k h r c, fopt fs fas k h r c = Except.error e) →
      funs.length = fargs.length → amin ≤ amax → 0 < amin → 1 ≤ n →
      (sweep_alpha_optimal_lambda_fixed_point fopt amin amax n lg vK vhK s0 funs
        fargs dec).result = Except.error e)
    ∧ (∀ (e : PyError) (fopt : OptFinder2) (amin amax : ℝ) (n : ℕ) (ig : ℝ × ℝ)
        (vK vhK : Kwargs) (s0 : State) (funs : List Obs)
        (fargs : List (List ℝ)) (dec : Bool),
      (∀ fs fas k h r c, fopt fs fas k h r c = Except.error e) →
      funs.length = fargs.length → amin ≤ amax → 0 < amin → 1 ≤ n →
      (sweep_alpha_optimal_lambda_hub_param_fixed_point fopt amin amax n ig vK
        vhK s0 funs fargs dec).result = Except.error e)
    ∧ (∀ (fpf : Solver) (amin amax : ℝ) (nA : ℕ) (lmin lmax : ℝ) (nL : ℕ)
        (vK vhK : Kwargs) (funs : List Obs) (fargs : List (List ℝ)) (s0 : State),
      amin ≤ amax → 0 < amin → lmin ≤ lmax → funs.length = fargs.length →
      ∃ v, (sweep_alpha_descend_lambda fpf amin amax nA lmin lmax nL vK vhK
        funs fargs s0).result = Except.ok v)
    ∧ (∀ (fpf : Solver) (condF : CondFunc) (amin amax : ℝ) (n : ℕ)
        (vK vhK : Kwargs) (s0 : State) (dec : Bool) (b0 b1 : ℝ) (ppr : ℕ),
      amin ≤ amax → 0 < amin → b0 ≤ b1 → 0 < b1 →
      ∃ v, (sweep_alpha_minimal_stable_reg_param fpf amin amax n condF vK vhK s0
        dec b0 b1 ppr).result = Except.ok v) := by
  refine ⟨?_, ?_, ?_, ?_, ?_⟩
  · intro e fpf amin amax n vK vhK s0 funs fargs dec hfail h1 h2 h3 hn
    cases hgrid : gridAlphas amin amax n dec with
    | nil =>
      have := gridAlphas_length amin amax n dec
      rw [hgrid] at this
      simp at this
      omega
    | cons a rest =>
      apply sweep_fp_result_of_loop_error fpf amin amax n vK vhK s0 funs fargs
        dec e h1 h2 h3
      rw [hgrid]
      exact alphaSweepLoop_error_of_failing fpf funs fargs vK e hfail a rest s0 vhK
  · intro e fopt amin amax n lg vK vhK s0 funs fargs dec hfail h1 h2 h3 hn
    cases hgrid : gridAlphas amin amax n dec with
    | nil =>
      have := gridAlphas_length amin amax n dec
      rw [hgrid] at this
      simp at this
      omega
    | cons a rest =>
      rw [sweep_opt_main fopt amin amax n lg vK vhK s0 funs fargs dec h1 h2 h3]
      rw [hgrid]
      rw [optSweepLoop_error_of_failing fopt funs fargs e hfail a rest s0 lg
        (copyDict vK) (copyDict vhK)]
  · intro e fopt amin amax n ig vK vhK s0 funs fargs dec hfail h1 h2 h3 hn
    cases hgrid : gridAlphas amin amax n dec with
    | nil =>
      have := gridAlphas_length amin amax n dec
      rw [hgrid] at this
      simp at this
      omega
    | cons a rest =>
      rw [sweep_hub_main fopt amin amax n ig vK vhK s0 funs fargs dec h1 h2 h3]
      rw [hgrid]
      rw [optHubSweepLoop_error_of_failing fopt funs fargs e hfail a rest s0
        ig.1 ig.2 (copyDict vK) (copyDict vhK)]
  · intro fpf amin amax nA lmin lmax nL vK vhK funs fargs s0 h1 h2 h3 h4
    rw [sweep_descend_main fpf amin amax nA lmin lmax nL vK vhK funs fargs s0
      h1 h2 h3 h4]
    exact ⟨_, rfl⟩
  · intro fpf condF amin amax n vK vhK s0 dec b0 b1 ppr h1 h2 h3 h4
    rw [sweep_minimal_main fpf amin amax n condF vK vhK s0 dec b0 b1 ppr
      h1 h2 h3 h4]
    cases dec with
    | false =>
      rw [if_neg Bool.false_ne_true]
      exact ⟨_, rfl⟩
    | true =>
      rw [if_pos rfl]
      exact ⟨_, rfl⟩

/-- Claim C6: for every sweep entry point, a violated precondition
(mismatched funs/funs_args lengths, alpha_min > alpha_max, alpha_min ≤ 0,
and for the relevant sweeps inverted lambda bounds or a non-positive upper
regularization search bound) makes the call return the ValueError with an
empty call trace — no pluggable function (solver, inner optimiser,
observable or condition function, all of which are only ever invoked from
the traced loops) is invoked — and with the caller's dictionaries
untouched. -/
theorem C6_preconditions_reject_before_any_call :
    (∀ (fpf : Solver) (amin amax : ℝ) (n : ℕ) (vK vhK : Kwargs) (s0 : State)
        (funs : List Obs) (fargs : List (List ℝ)) (dec : Bool),
      (funs.length ≠ fargs.length ∨ amax < amin ∨ amin ≤ 0) →
      (sweep_alpha_fixed_point fpf amin amax n vK vhK s0 funs fargs dec).result
          = Except.error PyError.valueError
        ∧ (sweep_alpha_fixed_point fpf amin amax n vK vhK s0 funs fargs
            dec).callTrace = []
        ∧ (sweep_alpha_fixed_point fpf amin amax n vK vhK s0 funs fargs
            dec).varKFinal = vK
        ∧ (sweep_alpha_fixed_point fpf amin amax n vK vhK s0 funs fargs
            dec).varHatKFinal = vhK)
    ∧ (∀ (fopt : OptFinder) (amin amax : ℝ) (n : ℕ) (lg : ℝ) (vK vhK : Kwargs)
        (s0 : State) (funs : List Obs) (fargs : List (List ℝ)) (dec : Bool),
      (funs.length ≠ fargs.length ∨ amax < amin ∨ amin ≤ 0) →
      (sweep_alpha_optimal_lambda_fixed_point fopt amin amax n lg vK vhK s0 funs
          fargs dec).result = Except.error PyError.valueError
        ∧ (sweep_alpha_optimal_lambda_fixed_point fopt amin amax n lg vK vhK s0
            funs fargs dec).callTrace = []
        ∧ (sweep_alpha_optimal_lambda_fixed_point fopt amin amax n lg vK vhK s0
            funs fargs dec).varKFinal = vK
        ∧ (sweep_alpha_optimal_lambda_fixed_point fopt amin amax n lg vK vhK s0
            funs fargs dec).varHatKFinal = vhK)
    ∧ (∀ (fopt : OptFinder2) (amin amax : ℝ) (n : ℕ) (ig : ℝ × ℝ)
        (vK vhK : Kwargs) (s0 : State) (funs : List Obs)
        (fargs : List (List ℝ)) (dec : Bool),
      (funs.length ≠ fargs.length ∨ amax < amin ∨ amin ≤ 0) →
      (sweep_alpha_optimal_lambda_hub_param_fixed_point fopt amin amax n ig vK
          vhK s0 funs fargs dec).result = Except.error PyError.valueError
        ∧ (sweep_alpha_optimal_lambda_hub_param_fixed_point fopt amin amax n ig
            vK vhK s0 funs fargs dec).callTrace = []
        ∧ (sweep_alpha_optimal_lambda_hub_param_fixed_point fopt amin amax n ig
            vK vhK s0 funs fargs dec).varKFinal = vK
        ∧ (sweep_alpha_optimal_lambda_hub_param_fixed_point fopt amin amax n ig
            vK vhK s0 funs fargs dec).varHatKFinal = vhK)
    ∧ (∀ (fpf : Solver) (amin amax : ℝ) (nA : ℕ) (lmin lmax : ℝ) (nL : ℕ)
        (vK vhK : Kwargs) (funs : List Obs) (fargs : List (List ℝ)) (s0 : State),
      (amax < amin ∨ amin ≤ 0 ∨ lmax < lmin ∨ funs.length ≠ fargs.length) →
      (sweep_alpha_descend_lambda fpf amin amax nA lmin lmax nL vK vhK funs
          fargs s0).result = Except.error PyError.valueError
        ∧ (sweep_alpha_descend_lambda fpf amin amax nA lmin lmax nL vK vhK funs
            fargs s0).colTraces = []
        ∧ (sweep_alpha_descend_lambda fpf amin amax nA lmin lmax nL vK vhK funs
            fargs s0).colInitConds = []
        ∧ (sweep_alpha_descend_lambda fpf amin amax nA lmin lmax nL vK vhK funs
            fargs s0).varKFinal = vK
        ∧ (sweep_alpha_descend_lambda fpf amin amax nA lmin lmax nL vK vhK funs
            fargs s0).varHatKFinal = vhK)
    ∧ (∀ (fpf : Solver) (condF : CondFunc) (amin amax : ℝ) (n : ℕ)
        (vK vhK : Kwargs) (s0 : State) (dec : Bool) (b0 b1 : ℝ) (ppr : ℕ),
      (amax < amin ∨ amin ≤ 0 ∨ b1 < b0 ∨ b1 ≤ 0) →
      (sweep_alpha_minimal_stable_reg_param fpf amin amax n condF vK vhK s0 dec
          b0 b1 ppr).result = Except.error PyError.valueError
        ∧ (sweep_alpha_minimal_stable_reg_param fpf amin amax n condF vK vhK s0
            dec b0 b1 ppr).colTraces = []
        ∧ (sweep_alpha_minimal_stable_reg_param fpf amin amax n condF vK vhK s0
            dec b0 b1 ppr).varKFinal = vK
        ∧ (sweep_alpha_minimal_stable_reg_param fpf amin amax n condF vK vhK s0
            dec b0 b1 ppr).varHatKFinal = vhK) := by
  refine ⟨?_, ?_, ?_, ?_, ?_⟩
  · intro fpf amin amax n vK vhK s0 funs fargs dec hv
    rw [sweep_fp_reject fpf amin amax n vK vhK s0 funs fargs dec hv]
    exact ⟨rfl, rfl, rfl, rfl⟩
  · intro fopt amin amax n lg vK vhK s0 funs fargs dec hv
    rw [sweep_opt_reject fopt amin amax n lg vK vhK s0 funs fargs dec hv]
    exact ⟨rfl, rfl, rfl, rfl⟩
  · intro fopt amin amax n ig vK vhK s0 funs fargs dec hv
    rw [sweep_hub_reject fopt amin amax n ig vK vhK s0 funs fargs dec hv]
    exact ⟨rfl, rfl, rfl, rfl⟩
  · intro fpf amin amax nA lmin lmax nL vK vhK funs fargs s0 hv
    rw [sweep_descend_reject fpf amin amax nA lmin lmax nL vK vhK funs fargs s0 hv]
    exact ⟨rfl, rfl, rfl, rfl, rfl⟩
  · intro fpf condF amin amax n vK vhK s0 dec b0 b1 ppr hv
    rw [sweep_minimal_reject fpf amin amax n condF vK vhK s0 dec b0 b1 ppr hv]
    exact ⟨rfl, rfl, rfl, rfl⟩

/-- Claim C9 (counterexample): the claim says every sweep entry point copies
both kwargs dictionaries and leaves the caller's dictionaries unchanged; at
a concrete run of sweep_alpha_fixed_point with an initially empty
var_hat_func_kwargs, after the sweep the caller's dictionary holds the
"alpha" key — this sweep takes no copies and mutates the caller's
var_hat_func_kwargs in place. -/
theorem C9_counterexample_fixed_point_mutates_kwargs :
    (sweep_alpha_fixed_point (fun s _ _ => Except.ok s) 1 10 2 [] []
        (0.6, 0.01, 0.9) [] [] true).varHatKFinal = [("alpha", 1)]
      ∧ ([(("alpha" : String), (1 : ℝ))] : Kwargs) ≠ ([] : Kwargs) := by
  constructor
  · rw [sweep_fp_run_down_eval]
  · simp

/-- Claim C9 (amended): the two optimal-lambda sweeps,
sweep_alpha_descend_lambda and sweep_alpha_minimal_stable_reg_param copy
var_func_kwargs and var_hat_func_kwargs once at entry and mutate only the
copies, so the caller's dictionaries come back unchanged;
sweep_alpha_fixed_point however takes no copies: its var_func_kwargs is
never mutated, but the caller's var_hat_func_kwargs is updated in place and
holds the key "alpha" as soon as one grid point has been processed. -/
theorem C9_kwargs_copied_except_fixed_point :
    (∀ (fopt : OptFinder) (amin amax : ℝ) (n : ℕ) (lg : ℝ) (vK vhK : Kwargs)
        (s0 : State) (funs : List Obs) (fargs : List (List ℝ)) (dec : Bool),
      (sweep_alpha_optimal_lambda_fixed_point fopt amin amax n lg vK vhK s0
          funs fargs dec).varKFinal = vK
        ∧ (sweep_alpha_optimal_lambda_fixed_point fopt amin amax n lg vK vhK s0
            funs fargs dec).varHatKFinal = vhK)
    ∧ (∀ (fopt : OptFinder2) (amin amax : ℝ) (n : ℕ) (ig : ℝ × ℝ)
        (vK vhK : Kwargs) (s0 : State) (funs : List Obs)
        (fargs : List (List ℝ)) (dec : Bool),
      (sweep_alpha_optimal_lambda_hub_param_fixed_point fopt amin amax n ig vK
          vhK s0 funs fargs dec).varKFinal = vK
        ∧ (sweep_alpha_optimal_lambda_hub_param_fixed_point fopt amin amax n ig
            vK vhK s0 funs fargs dec).varHatKFinal = vhK)
    ∧ (∀ (fpf : Solver) (amin amax : ℝ) (nA : ℕ) (lmin lmax : ℝ) (nL : ℕ)
        (vK vhK : Kwargs) (funs : List Obs) (fargs : List (List ℝ)) (s0 : State),
      (sweep_alpha_descend_lambda fpf amin amax nA lmin lmax nL vK vhK funs
          fargs s0).varKFinal = vK
        ∧ (sweep_alpha_descend_lambda fpf amin amax nA lmin lmax nL vK vhK funs
            fargs s0).varHatKFinal = vhK)
    ∧ (∀ (fpf : Solver) (condF : CondFunc) (amin amax : ℝ) (n : ℕ)
        (vK vhK : Kwargs) (s0 : State) (dec : Bool) (b0 b1 : ℝ) (ppr : ℕ),
      (sweep_alpha_minimal_stable_reg_param fpf amin amax n condF vK vhK s0 dec
          b0 b1 ppr).varKFinal = vK
        ∧ (sweep_alpha_minimal_stable_reg_param fpf amin amax n condF vK vhK s0
            dec b0 b1 ppr).varHatKFinal = vhK)
    ∧ (∀ (fpf : Solver) (amin amax : ℝ) (n : ℕ) (vK vhK : Kwargs) (s0 : State)
        (funs : List Obs) (fargs : List (List ℝ)) (dec : Bool),
      (sweep_alpha_fixed_point fpf amin amax n vK vhK s0 funs fargs
          dec).varKFinal = vK
        ∧ ((sweep_alpha_fixed_point fpf amin amax n vK vhK s0 funs fargs
            dec).callTrace ≠ [] →
          hasKey (sweep_alpha_fixed_point fpf amin amax n vK vhK s0 funs fargs
            dec).varHatKFinal "alpha" = true)) := by
  refine ⟨?_, ?_, ?_, ?_, ?_⟩
  · intro fopt amin amax n lg vK vhK s0 funs fargs dec
    exact ⟨sweep_opt_varK fopt amin amax n lg vK vhK s0 funs fargs dec,
      sweep_opt_varHat fopt amin amax n lg vK vhK s0 funs fargs dec⟩
  · intro fopt amin amax n ig vK vhK s0 funs fargs dec
    exact ⟨sweep_hub_varK fopt amin amax n ig vK vhK s0 funs fargs dec,
      sweep_hub_varHat fopt amin amax n ig vK vhK s0 funs fargs dec⟩
  · intro fpf amin amax nA lmin lmax nL vK vhK funs fargs s0
    exact sweep_descend_dicts fpf amin amax nA lmin lmax nL vK vhK funs fargs s0
  · intro fpf condF amin amax n vK vhK s0 dec b0 b1 ppr
    exact sweep_minimal_dicts fpf amin amax n condF vK vhK s0 dec b0 b1 ppr
  · intro fpf amin amax n vK vhK s0 funs fargs dec
    refine ⟨sweep_fp_varKFinal fpf amin amax n vK vhK s0 funs fargs dec, ?_⟩
    intro hne
    have h1 : funs.length = fargs.length := by
      by_contra hv
      rw [sweep_fp_reject fpf amin amax n vK vhK s0 funs fargs dec (Or.inl hv)]
        at hne
      exact hne rfl
    have h2 : amin ≤ amax := by
      by_contra hv
      rw [sweep_fp_reject fpf amin amax n vK vhK s0 funs fargs dec
        (Or.inr (Or.inl (lt_of_not_le hv)))] at hne
      exact hne rfl
    have h3 : 0 < amin := by
      by_contra hv
      rw [sweep_fp_reject fpf amin amax n vK vhK s0 funs fargs dec
        (Or.inr (Or.inr (le_of_not_lt hv)))] at hne
      exact hne rfl
    rw [sweep_fp_callTrace fpf amin amax n vK vhK s0 funs fargs dec h1 h2 h3]
      at hne
    rw [sweep_fp_varHatFinal fpf amin amax n vK vhK s0 funs fargs dec h1 h2 h3]
    cases hgrid : gridAlphas amin amax n dec with
    | nil =>
      rw [hgrid, alphaSweepLoop_nil] at hne
      exact absurd rfl hne
    | cons a rest =>
      exact alphaSweepLoop_final_hasKey fpf funs fargs vK (a :: rest) s0 vhK
        (by simp)

/-- Claim C10: for every alpha, n_features and repetition count,
run_erm_weight_finding requests n_samples = max(int(around(n_features *
alpha)), 1) from data_generation at every repetition — at least one sample
even when n_features * alpha rounds to zero — and records, per repetition,
the generalization error sum((ground_truth_theta - estimated_theta)^2) /
n_features. -/
theorem C10_erm_samples_and_error :
    ∀ (dataGen : DataGen) (findCoef : CoefFinder) (alpha : ℚ) (nf reps : ℕ),
      (run_erm_weight_finding dataGen findCoef alpha nf
          reps).samplesRequested.length = reps
      ∧ (∀ s ∈ (run_erm_weight_finding dataGen findCoef alpha nf
            reps).samplesRequested,
          s = (max (roundHalfEven ((nf : ℚ) * alpha)) 1).toNat ∧ 1 ≤ s)
      ∧ ∀ r, r < reps →
          (run_erm_weight_finding dataGen findCoef alpha nf reps).genErrors.getD
              r 0
            = sumSqDiff
                (dataGen r nf ((max (roundHalfEven ((nf : ℚ) * alpha)) 1).toNat)
                  1).groundTruthTheta
                (findCoef
                  (dataGen r nf
                    ((max (roundHalfEven ((nf : ℚ) * alpha)) 1).toNat) 1).ys
                  (dataGen r nf
                    ((max (roundHalfEven ((nf : ℚ) * alpha)) 1).toNat) 1).xs)
              / (nf : ℚ) := by
  intro dataGen findCoef alpha nf reps
  refine ⟨?_, ?_, ?_⟩
  · simp [run_erm_weight_finding]
  · intro s hs
    simp only [run_erm_weight_finding, List.mem_replicate] at hs
    refine ⟨hs.2, ?_⟩
    rw [hs.2]
    simp
  · intro r hr
    simp only [run_erm_weight_finding]
    rw [getD_map_of_lt _ _ r 0 0 (by simpa using hr)]
    rw [List.getD_eq_getElem _ _ (by simpa using hr), List.getElem_range]
